import Mathlib

/-!
Verification of the flow-orchestration core of the `testpods` repository.

Python strings are modelled as `List Char` (a Python `str` is a sequence of
code points); top-level functions that mirror Python functions taking `str`
arguments are also provided on `String` via `String.toList`.  Regular
expressions from the source are embedded by a small backtracking matcher in
continuation-passing style whose primitives correspond one-to-one to the
regex constructs used by the source (`literal`, `\s*` greedy, `.+?` lazy,
`(?!...)`, alternation), so that leftmost-first-success semantics of Python's
`re` module are preserved.
-/

set_option linter.unusedVariables false
set_option maxRecDepth 100000

/-- Python's `\s` whitespace class, ASCII range (` `, `\t`, `\n`, `\r`,
`\x0b`, `\x0c`). -/
def pyIsSpace (c : Char) : Bool :=
  c = ' ' || c = '\t' || c = '\n' || c = '\r' || c = '\x0b' || c = '\x0c'

/-- Python's `\d` digit class, ASCII range. -/
def pyIsDigit (c : Char) : Bool :=
  '0' ≤ c && c ≤ '9'

/-- Python's `\w` word class, ASCII range (`[a-zA-Z0-9_]`). -/
def pyIsWord (c : Char) : Bool :=
  ('a' ≤ c && c ≤ 'z') || ('A' ≤ c && c ≤ 'Z') || pyIsDigit c || c = '_'

/-- Case folding used for `re.IGNORECASE` on the ASCII literals appearing in
the source's patterns. -/
def pyLower (c : Char) : Char :=
  if 'A' ≤ c && c ≤ 'Z' then Char.ofNat (c.toNat + 32) else c

/-- `marker` occurs in `text` starting at index `i` (substring occurrence). -/
def occursAt (text marker : List Char) (i : Nat) : Bool :=
  marker.isPrefixOf (text.drop i)

/-- Python's `needle in hay` substring test for `str`. -/
def containsSub (hay needle : List Char) : Bool :=
  (List.range (hay.length + 1)).any fun i => occursAt hay needle i

/-- Python's `needle in hay` substring test, `String` version. -/
def containsSubS (hay needle : String) : Bool :=
  containsSub hay.toList needle.toList

/-- The quote characters rejected by the standalone-marker lookbehind:
backtick, double quote, single quote. -/
def isQuoteChar (c : Char) : Bool :=
  c = '`' || c = '"' || c = '\''

/-- The character immediately preceding position `i` of `content`
(`none` at position 0). -/
def precChar (content : List Char) (i : Nat) : Option Char :=
  if i = 0 then none else content.get? (i - 1)

/-- The negative lookbehind `(?<![`"\'])` of `_is_standalone_marker`:
`true` when the match position is acceptable. -/
def lookbehindOk (content : List Char) (i : Nat) : Bool :=
  match precChar content i with
  | none => true
  | some c => !isQuoteChar c

/-- Embedding of `review_loop._is_standalone_marker`: Python
`re.search(rf'(?<![`"\']){re.escape(marker)}', content)` — the marker occurs
literally at some position whose preceding character (if any) is not a
backtick or quote. -/
def isStandaloneMarkerL (content marker : List Char) : Bool :=
  (List.range (content.length + 1)).any fun i =>
    occursAt content marker i && lookbehindOk content i

/-- `review_loop._is_standalone_marker` on `String`. -/
def isStandaloneMarker (content marker : String) : Bool :=
  isStandaloneMarkerL content.toList marker.toList

/-- Embedding of `review_loop.check_review_approved` given the content
behind the report-file path: `none` models a missing path or a
`FileNotFoundError`; otherwise the standalone-marker search runs on the
file's text. -/
def check_review_approved (reportContent : Option String) (approval_marker : String) : Bool :=
  match reportContent with
  | none => false
  | some content => isStandaloneMarker content approval_marker

/-- The three quote characters, as a list. -/
def quoteChars : List Char := ['`', '"', '\'']

/-- C1, helper: every occurrence of the marker in the text is immediately
preceded by a backtick, double-quote or single-quote character. -/
def allOccurrencesQuoted (text marker : List Char) : Prop :=
  ∀ i < text.length + 1, occursAt text marker i = true →
    ∃ c ∈ quoteChars, precChar text i = some c

/-- C1, helper: some occurrence of the marker is not preceded by a
backtick/quote character (including an occurrence at the very start). -/
def someStandaloneOccurrence (text marker : List Char) : Prop :=
  ∃ i, occursAt text marker i = true ∧ ¬ ∃ c ∈ quoteChars, precChar text i = some c

theorem lookbehindOk_iff (text : List Char) (i : Nat) :
    lookbehindOk text i = true ↔ ¬ ∃ c ∈ quoteChars, precChar text i = some c := by
  unfold lookbehindOk
  cases h : precChar text i with
  | none => simp
  | some c =>
    simp only [Bool.not_eq_true']
    constructor
    · rintro hq ⟨d, hd, hdc⟩
      injection hdc with hdc
      subst hdc
      fin_cases hd <;> simp_all [isQuoteChar]
    · intro hne
      by_contra hq
      rw [Bool.not_eq_false] at hq
      refine hne ⟨c, ?_, rfl⟩
      unfold isQuoteChar at hq
      unfold quoteChars
      rcases Bool.or_eq_true_iff.mp hq with hor | h3
      · rcases Bool.or_eq_true_iff.mp hor with h1 | h2
        · simp only [decide_eq_true_eq] at h1; simp [h1]
        · simp only [decide_eq_true_eq] at h2; simp [h2]
      · simp only [decide_eq_true_eq] at h3; simp [h3]

theorem occursAt_empty_of_gt {text marker : List Char} {i : Nat}
    (hgt : text.length < i) (h : occursAt text marker i = true) : marker = [] := by
  unfold occursAt at h
  rw [List.drop_eq_nil_of_le (Nat.le_of_lt hgt)] at h
  cases marker with
  | nil => rfl
  | cons c cs => simp [List.isPrefixOf] at h

/-- C1: the standalone approval check returns `false` when every occurrence
of the marker in the text is immediately preceded by a backtick,
double-quote, or single-quote character, and returns `true` when at least
one occurrence is not so preceded — even if a quoted occurrence of the
marker appears earlier in the same text. -/
theorem standalone_marker_correct (text marker : List Char) :
    (allOccurrencesQuoted text marker → isStandaloneMarkerL text marker = false) ∧
    (someStandaloneOccurrence text marker → isStandaloneMarkerL text marker = true) := by
  constructor
  · intro hq
    unfold isStandaloneMarkerL
    rw [List.any_eq_false]
    intro i hmem
    simp only [Bool.and_eq_true, not_and]
    intro hocc hlb
    rw [List.mem_range] at hmem
    exact (lookbehindOk_iff text i).mp hlb (hq i hmem hocc)
  · rintro ⟨i, hocc, hne⟩
    have hlb : lookbehindOk text i = true := (lookbehindOk_iff text i).mpr hne
    unfold isStandaloneMarkerL
    rw [List.any_eq_true]
    by_cases hle : i ≤ text.length
    · exact ⟨i, List.mem_range.mpr (Nat.lt_succ_of_le hle), by rw [hocc, hlb]; rfl⟩
    · have hnil : marker = [] := occursAt_empty_of_gt (Nat.lt_of_not_le hle) hocc
      refine ⟨0, List.mem_range.mpr (Nat.succ_pos _), ?_⟩
      subst hnil
      simp [occursAt, lookbehindOk, precChar, List.isPrefixOf]

/-- C1 witness: in a text whose only marker occurrence is backtick-quoted
the check is `false`; with a standalone repetition appended it is `true`. -/
theorem standalone_marker_correct_witness :
    isStandaloneMarkerL "x `REVIEW_RESULT: APPROVED` y".toList
        "REVIEW_RESULT: APPROVED".toList = false ∧
    isStandaloneMarkerL "x `REVIEW_RESULT: APPROVED` then REVIEW_RESULT: APPROVED".toList
        "REVIEW_RESULT: APPROVED".toList = true :=
  ⟨(standalone_marker_correct _ _).1 (by unfold allOccurrencesQuoted; decide),
   (standalone_marker_correct _ _).2 ⟨33, by decide, by decide⟩⟩

/-! ### `orchestration_utils.InfoTracker` (C10) -/

/-- Embedding of `orchestration_utils.InfoTracker`: the `_info` constructor
argument (`None` or a string) and the `_used` flag. -/
structure InfoTracker where
  _info : Option String
  _used : Bool

/-- `InfoTracker.__init__`: stores `info` and sets `_used = False`. -/
def InfoTracker.init (info : Option String) : InfoTracker :=
  ⟨info, false⟩

/-- Python truthiness of an `Optional[str]`: `None` and `""` are falsy. -/
def pyTruthyStr : Option String → Bool
  | none => false
  | some s => !(s == "")

/-- Embedding of `InfoTracker.add_to_input`: if `self._info and not
self._used`, mark used and return the input with the separator and info
appended; otherwise return the input unchanged. The mutation of `_used` is
modelled by returning the updated tracker. -/
def InfoTracker.add_to_input (t : InfoTracker) (base_input : String) :
    String × InfoTracker :=
  if pyTruthyStr t._info && !t._used then
    (base_input ++ "\n\nAdditional context:\n" ++ t._info.getD "",
      { t with _used := true })
  else
    (base_input, t)

/-- A sequence of `add_to_input` calls on the same tracker, returning the
list of results. -/
def InfoTracker.runCalls (t : InfoTracker) : List String → List String × InfoTracker
  | [] => ([], t)
  | b :: bs =>
    let p := t.add_to_input b
    let q := p.2.runCalls bs
    (p.1 :: q.1, q.2)

theorem InfoTracker.runCalls_id (t : InfoTracker)
    (h : pyTruthyStr t._info = false ∨ t._used = true) :
    ∀ inputs : List String, (t.runCalls inputs).1 = inputs := by
  intro inputs
  induction inputs generalizing t with
  | nil => rfl
  | cons b bs ih =>
    have hcond : (pyTruthyStr t._info && !t._used) = false := by
      rcases h with h | h <;> simp [h]
    simp only [InfoTracker.runCalls, InfoTracker.add_to_input, hcond]
    simp [ih t h]

/-- C10: a tracker constructed with a non-empty info string appends
`"\n\nAdditional context:\n" ++ info` to the first call's argument and
returns every subsequent argument unchanged; a tracker constructed with
`None` or the empty string returns every argument unchanged. -/
theorem infoTracker_behavior (info : String) (h : info ≠ "") :
    (∀ b : String, ∀ bs : List String,
      ((InfoTracker.init (some info)).runCalls (b :: bs)).1 =
        (b ++ "\n\nAdditional context:\n" ++ info) :: bs) ∧
    (∀ inputs : List String, ((InfoTracker.init none).runCalls inputs).1 = inputs) ∧
    (∀ inputs : List String, ((InfoTracker.init (some "")).runCalls inputs).1 = inputs) := by
  refine ⟨?_, ?_, ?_⟩
  · intro b bs
    have htruthy : pyTruthyStr (some info) = true := by
      simp only [pyTruthyStr, Bool.not_eq_true', beq_eq_false_iff_ne, ne_eq]
      exact h
    have hfirst : (InfoTracker.init (some info)).add_to_input b =
        (b ++ "\n\nAdditional context:\n" ++ info, ⟨some info, true⟩) := by
      simp [InfoTracker.add_to_input, InfoTracker.init, htruthy]
    simp only [InfoTracker.runCalls, hfirst]
    simp only [List.cons.injEq, true_and]
    exact InfoTracker.runCalls_id ⟨some info, true⟩ (Or.inr rfl) bs
  · intro inputs
    exact InfoTracker.runCalls_id (InfoTracker.init none) (Or.inl rfl) inputs
  · intro inputs
    exact InfoTracker.runCalls_id (InfoTracker.init (some ""))
      (Or.inl (by simp [pyTruthyStr, InfoTracker.init])) inputs

/-- C10 witness: concrete evaluation of a tracker with info `"extra"` on two
calls, and of trackers with `None` and `""`. -/
theorem infoTracker_behavior_witness :
    ((InfoTracker.init (some "extra")).runCalls ["a", "b"]).1 =
      ["a" ++ "\n\nAdditional context:\n" ++ "extra", "b"] ∧
    ((InfoTracker.init none).runCalls ["a", "b"]).1 = ["a", "b"] ∧
    ((InfoTracker.init (some "")).runCalls ["a", "b"]).1 = ["a", "b"] :=
  ⟨(infoTracker_behavior "extra" (by decide)).1 "a" ["b"],
   (infoTracker_behavior "extra" (by decide)).2.1 ["a", "b"],
   (infoTracker_behavior "extra" (by decide)).2.2 ["a", "b"]⟩

/-! ### `proof/scripts/validate_evidence.py` (C6, C9) -/

/-- Embedding of `evidence_schema.CommandEvidence` (pydantic model): result
of executing one CLI command. -/
structure CommandEvidence where
  command : String
  exit_code : Int
  stdout : String
  stderr : String
  duration_ms : Float
  expected_pattern : Option String
  pattern_matched : Option Bool
  recording_path : Option String

/-- Embedding of `evidence_schema.DemoEvidence`: evidence from one demo. -/
structure DemoEvidence where
  name : String
  description : String
  commands : List CommandEvidence
  recording_path : Option String
  passed : Bool
  failure_reason : Option String

/-- Embedding of `evidence_schema.EvidenceSummary` (pydantic `int` fields). -/
structure EvidenceSummary where
  total_demos : Int
  passed_demos : Int
  failed_demos : Int
  total_commands : Int
  passed_commands : Int
  failed_commands : Int

/-- Embedding of `evidence_schema.EvidenceReport`.  The `showcase_spec` and
`web_evidence` fields live in `proof.types`, which is an interface-only
collaborator never read by `validate_semantic`; they are not modelled. -/
structure EvidenceReport where
  collected_at : String
  flow_name : String
  cli_evidence : List DemoEvidence
  summary : EvidenceSummary
  errors : List String
  spec_plan_summary : Option String
  git_commits : List String
  agent_summaries : List String

/-- The duplicate-demo-name loop of `validate_semantic`: walks the demos,
carrying the list of names seen so far. -/
def dupNameErrors : List DemoEvidence → List String → List String
  | [], _ => []
  | d :: ds, seen =>
    (if seen.contains d.name then
      ["Duplicate demo name: '" ++ d.name ++ "'"] else [])
      ++ dupNameErrors ds (seen ++ [d.name])

/-- `any(cmd.pattern_matched is False for cmd in demo.commands)`. -/
def hasFailedCommand (demo : DemoEvidence) : Bool :=
  demo.commands.any fun cmd => cmd.pattern_matched == some false

/-- The passed/failed command tally loop of `validate_semantic`: a command
counts as failed when its demo failed, or when its own `pattern_matched`
is `False`; otherwise it counts as passed.  Returns `(passed, failed)`. -/
def commandTally : List DemoEvidence → Int × Int
  | [] => (0, 0)
  | demo :: rest =>
    let tail := commandTally rest
    let here := demo.commands.foldl
      (fun (acc : Int × Int) cmd =>
        if demo.passed = false then (acc.1, acc.2 + 1)
        else if cmd.pattern_matched == some false then (acc.1, acc.2 + 1)
        else (acc.1 + 1, acc.2)) (0, 0)
    (here.1 + tail.1, here.2 + tail.2)

/-- The per-demo passed/failed consistency loop of `validate_semantic`. -/
def demoConsistencyErrors : List DemoEvidence → List String
  | [] => []
  | demo :: rest =>
    (if demo.passed = true ∧ hasFailedCommand demo = true then
      ["Demo '" ++ demo.name ++ "' is marked as passed but has failed commands"] else [])
    ++ (if demo.passed = false ∧ hasFailedCommand demo = false ∧ demo.failure_reason = none then
      ["Demo '" ++ demo.name ++ "' is marked as failed but has no failed commands and no failure_reason"] else [])
    ++ demoConsistencyErrors rest

/-- Embedding of `validate_evidence.validate_semantic`: all semantic checks
in source order, accumulating the error-message list. -/
def validate_semantic (report : EvidenceReport) : List String :=
  let actual_total_demos : Int := report.cli_evidence.length
  let actual_passed_demos : Int := (report.cli_evidence.countP fun d => d.passed).cast
  let actual_failed_demos : Int := (report.cli_evidence.countP fun d => !d.passed).cast
  let actual_total_commands : Int :=
    (report.cli_evidence.map fun d => d.commands.length).sum
  let tally := commandTally report.cli_evidence
  dupNameErrors report.cli_evidence []
  ++ (if report.summary.total_demos ≠ actual_total_demos then
      ["Summary total_demos (" ++ toString report.summary.total_demos
        ++ ") doesn't match actual demo count (" ++ toString actual_total_demos ++ ")"] else [])
  ++ (if report.summary.passed_demos ≠ actual_passed_demos then
      ["Summary passed_demos (" ++ toString report.summary.passed_demos
        ++ ") doesn't match actual passed count (" ++ toString actual_passed_demos ++ ")"] else [])
  ++ (if report.summary.failed_demos ≠ actual_failed_demos then
      ["Summary failed_demos (" ++ toString report.summary.failed_demos
        ++ ") doesn't match actual failed count (" ++ toString actual_failed_demos ++ ")"] else [])
  ++ (if report.summary.total_commands ≠ actual_total_commands then
      ["Summary total_commands (" ++ toString report.summary.total_commands
        ++ ") doesn't match actual command count (" ++ toString actual_total_commands ++ ")"] else [])
  ++ (if report.summary.passed_commands ≠ tally.1 then
      ["Summary passed_commands (" ++ toString report.summary.passed_commands
        ++ ") doesn't match calculated passed count (" ++ toString tally.1 ++ ")"] else [])
  ++ (if report.summary.failed_commands ≠ tally.2 then
      ["Summary failed_commands (" ++ toString report.summary.failed_commands
        ++ ") doesn't match calculated failed count (" ++ toString tally.2 ++ ")"] else [])
  ++ demoConsistencyErrors report.cli_evidence

theorem if_singleton_eq_nil {c : Prop} [Decidable c] {m : String}
    (h : (if c then [m] else []) = []) : ¬c := by
  intro hc
  rw [if_pos hc] at h
  exact absurd h (by simp)

theorem hasFailedCommand_iff (demo : DemoEvidence) :
    hasFailedCommand demo = true ↔
      ∃ cmd ∈ demo.commands, cmd.pattern_matched = some false := by
  unfold hasFailedCommand
  rw [List.any_eq_true]
  constructor
  · rintro ⟨cmd, hm, hb⟩
    exact ⟨cmd, hm, by simpa using hb⟩
  · rintro ⟨cmd, hm, hb⟩
    exact ⟨cmd, hm, by simpa using hb⟩

theorem demoConsistencyErrors_eq_nil {demos : List DemoEvidence}
    (h : demoConsistencyErrors demos = []) :
    ∀ demo ∈ demos,
      ¬(demo.passed = true ∧ hasFailedCommand demo = true) ∧
      ¬(demo.passed = false ∧ hasFailedCommand demo = false ∧
        demo.failure_reason = none) := by
  induction demos with
  | nil => intro demo hm; exact absurd hm (List.not_mem_nil demo)
  | cons d ds ih =>
    unfold demoConsistencyErrors at h
    rw [List.append_assoc, List.append_eq_nil] at h
    obtain ⟨h1, h2⟩ := h
    rw [List.append_eq_nil] at h2
    obtain ⟨h2, h3⟩ := h2
    intro demo hm
    rcases List.mem_cons.mp hm with heq | hmem
    · subst heq
      exact ⟨if_singleton_eq_nil h1, if_singleton_eq_nil h2⟩
    · exact ih h3 demo hmem

/-- C6 (amended): whenever `validate_semantic` reports no error, the summary
demo totals match the actual counts, every demo with a pattern-failed
command is marked failed, and every failed demo has a pattern-failed
command or a `failure_reason`.  (The converse — a recorded `failure_reason`
forcing `passed == false` — does not hold; see the counterexample.) -/
theorem validate_semantic_accepts_only (r : EvidenceReport)
    (h : validate_semantic r = []) :
    r.summary.total_demos = (r.cli_evidence.length : Int) ∧
    r.summary.passed_demos = ((r.cli_evidence.countP fun d => d.passed) : Int) ∧
    ∀ demo ∈ r.cli_evidence,
      ((demo.passed = false →
          (∃ cmd ∈ demo.commands, cmd.pattern_matched = some false) ∨
            demo.failure_reason ≠ none) ∧
       ((∃ cmd ∈ demo.commands, cmd.pattern_matched = some false) →
          demo.passed = false)) := by
  unfold validate_semantic at h
  simp only [List.append_assoc, List.append_eq_nil] at h
  obtain ⟨-, htotal, hpassed, -, -, -, -, hdemo⟩ := h
  refine ⟨?_, ?_, ?_⟩
  · have := if_singleton_eq_nil htotal
    rwa [not_not] at this
  · have := if_singleton_eq_nil hpassed
    rwa [not_not] at this
  · intro demo hm
    obtain ⟨hc1, hc2⟩ := demoConsistencyErrors_eq_nil hdemo demo hm
    constructor
    · intro hpf
      by_contra hcon
      push_neg at hcon
      obtain ⟨hnocmd, hreason⟩ := hcon
      refine hc2 ⟨hpf, ?_, hreason⟩
      rw [← Bool.not_eq_true, hasFailedCommand_iff]
      push_neg
      exact hnocmd
    · intro hex
      by_contra hpt
      rw [Bool.not_eq_false] at hpt
      exact hc1 ⟨hpt, (hasFailedCommand_iff demo).mpr hex⟩

/-- The property claimed of the evidence validator, as stated: acceptance
implies matching demo totals and, for every demo, `passed == false` holds
iff some command has `pattern_matched == false` or the demo records a
`failure_reason`. -/
def claimC6 (r : EvidenceReport) : Prop :=
  validate_semantic r = [] →
    r.summary.total_demos = (r.cli_evidence.length : Int) ∧
    r.summary.passed_demos = ((r.cli_evidence.countP fun d => d.passed) : Int) ∧
    ∀ demo ∈ r.cli_evidence,
      (demo.passed = false ↔
        ((∃ cmd ∈ demo.commands, cmd.pattern_matched = some false) ∨
          demo.failure_reason ≠ none))

/-- A report with one passed, command-free demo that nevertheless records a
`failure_reason`: `validate_semantic` accepts it, refuting the iff. -/
def c6Report : EvidenceReport :=
  { collected_at := "2024-01-01T00:00:00"
    flow_name := "demo-flow"
    cli_evidence := [
      { name := "d1", description := "", commands := [], recording_path := none,
        passed := true, failure_reason := some "collector hiccup" }]
    summary := { total_demos := 1, passed_demos := 1, failed_demos := 0,
                 total_commands := 0, passed_commands := 0, failed_commands := 0 }
    errors := []
    spec_plan_summary := none
    git_commits := []
    agent_summaries := [] }

/-- C6 counterexample: the validator accepts a report in which a passed demo
records a `failure_reason`, so "`passed == false` iff a pattern-failed
command exists or a `failure_reason` is recorded" is not a consequence of
acceptance. -/
theorem validate_semantic_iff_counterexample : ¬ claimC6 c6Report := by
  intro h
  have hacc : validate_semantic c6Report = [] := by rfl
  obtain ⟨-, -, hdemo⟩ := h hacc
  have h1 := hdemo
    { name := "d1", description := "", commands := [], recording_path := none,
      passed := true, failure_reason := some "collector hiccup" }
    (by unfold c6Report; exact List.mem_singleton.mpr rfl)
  have h2 := h1.mpr (Or.inr (by simp))
  exact absurd h2 (by simp)

/-- A report accepted by `validate_semantic` with one passed demo and one
pattern-matching command (witness data for C6). -/
def c6WitnessReport : EvidenceReport :=
  { collected_at := "2024-01-01T00:00:00"
    flow_name := "demo-flow"
    cli_evidence := [
      { name := "d1", description := "", recording_path := none,
        passed := true, failure_reason := none,
        commands := [
          { command := "echo hi", exit_code := 0, stdout := "hi", stderr := "",
            duration_ms := 1.0, expected_pattern := some "hi",
            pattern_matched := some true, recording_path := none }] }]
    summary := { total_demos := 1, passed_demos := 1, failed_demos := 0,
                 total_commands := 1, passed_commands := 1, failed_commands := 0 }
    errors := []
    spec_plan_summary := none
    git_commits := []
    agent_summaries := [] }

/-- C6 witness: the amended theorem applied to a concrete accepted report. -/
theorem validate_semantic_accepts_only_witness :
    validate_semantic c6WitnessReport = [] ∧
    c6WitnessReport.summary.total_demos = (c6WitnessReport.cli_evidence.length : Int) ∧
    c6WitnessReport.summary.passed_demos =
      ((c6WitnessReport.cli_evidence.countP fun d => d.passed) : Int) :=
  ⟨rfl, (validate_semantic_accepts_only c6WitnessReport rfl).1,
    (validate_semantic_accepts_only c6WitnessReport rfl).2.1⟩

theorem commandTally_cons_failed (demo : DemoEvidence)
    (hp : demo.passed = false) (cmds : List CommandEvidence) (acc : Int × Int) :
    cmds.foldl
      (fun (acc : Int × Int) cmd =>
        if demo.passed = false then (acc.1, acc.2 + 1)
        else if cmd.pattern_matched == some false then (acc.1, acc.2 + 1)
        else (acc.1 + 1, acc.2)) acc = (acc.1, acc.2 + cmds.length) := by
  induction cmds generalizing acc with
  | nil => simp
  | cons c cs ih =>
    rw [List.foldl_cons, if_pos hp, ih]
    rw [Prod.mk.injEq]
    refine ⟨rfl, ?_⟩
    simp only [List.length_cons]
    push_cast
    omega

theorem commandTally_cons_passed (demo : DemoEvidence)
    (hp : demo.passed = true) (cmds : List CommandEvidence) (acc : Int × Int) :
    cmds.foldl
      (fun (acc : Int × Int) cmd =>
        if demo.passed = false then (acc.1, acc.2 + 1)
        else if cmd.pattern_matched == some false then (acc.1, acc.2 + 1)
        else (acc.1 + 1, acc.2)) acc =
      (acc.1 + ((cmds.countP fun cmd => !(cmd.pattern_matched == some false)) : Int),
       acc.2 + ((cmds.countP fun cmd => cmd.pattern_matched == some false) : Int)) := by
  induction cmds generalizing acc with
  | nil => simp
  | cons c cs ih =>
    have hnp : ¬(demo.passed = false) := by simp [hp]
    rw [List.foldl_cons, if_neg hnp]
    by_cases hc : (c.pattern_matched == some false) = true
    · have hnotpred : ¬((!(c.pattern_matched == some false)) = true) := by
        rw [hc]; simp
      rw [if_pos hc, ih]
      rw [List.countP_cons_of_pos (fun cmd => cmd.pattern_matched == some false) cs hc]
      rw [List.countP_cons_of_neg (fun cmd => !(cmd.pattern_matched == some false)) cs hnotpred]
      rw [Prod.mk.injEq]
      constructor <;> (push_cast; omega)
    · have hpred : (!(c.pattern_matched == some false)) = true := by
        simp only [Bool.not_eq_true] at hc
        rw [hc]; rfl
      rw [if_neg hc, ih]
      rw [List.countP_cons_of_neg (fun cmd => cmd.pattern_matched == some false) cs hc]
      rw [List.countP_cons_of_pos (fun cmd => !(cmd.pattern_matched == some false)) cs hpred]
      rw [Prod.mk.injEq]
      constructor <;> (push_cast; omega)

/-- C9, helper: the failed-command tally of the validator equals the
per-demo propagated count: all commands of a failed demo, plus the
pattern-failed commands of passed demos. -/
theorem commandTally_snd (demos : List DemoEvidence) :
    (commandTally demos).2 =
      (demos.map fun demo =>
        if demo.passed = false then (demo.commands.length : Int)
        else ((demo.commands.countP fun cmd =>
          cmd.pattern_matched == some false) : Int)).sum := by
  induction demos with
  | nil => rfl
  | cons d ds ih =>
    unfold commandTally
    by_cases hp : d.passed = false
    · rw [commandTally_cons_failed d hp d.commands (0, 0)]
      simp only [List.map_cons, List.sum_cons, if_pos hp]
      rw [ih]
      omega
    · rw [Bool.not_eq_false] at hp
      rw [commandTally_cons_passed d hp d.commands (0, 0)]
      have hnp : ¬(d.passed = false) := by simp [hp]
      simp only [List.map_cons, List.sum_cons, if_neg hnp]
      rw [ih]
      omega

/-- C9: whenever `validate_semantic` accepts a report, the summary's
`failed_commands` equals the propagated count in which every command of a
demo with `passed == false` counts as failed — including commands whose own
`pattern_matched` is true — while in passed demos only commands with
`pattern_matched == False` count. -/
theorem failed_commands_propagate (r : EvidenceReport)
    (h : validate_semantic r = []) :
    r.summary.failed_commands =
      (r.cli_evidence.map fun demo =>
        if demo.passed = false then (demo.commands.length : Int)
        else ((demo.commands.countP fun cmd =>
          cmd.pattern_matched == some false) : Int)).sum := by
  unfold validate_semantic at h
  simp only [List.append_assoc, List.append_eq_nil] at h
  obtain ⟨-, -, -, -, -, -, hfailed, -⟩ := h
  have := if_singleton_eq_nil hfailed
  rw [not_not] at this
  rw [this, commandTally_snd]

/-- A report accepted by `validate_semantic` whose single demo failed with a
recorded reason while its one command's pattern matched (witness data for
C9: the command still counts as failed). -/
def c9Report : EvidenceReport :=
  { collected_at := "2024-01-01T00:00:00"
    flow_name := "demo-flow"
    cli_evidence := [
      { name := "d1", description := "", recording_path := none,
        passed := false, failure_reason := some "setup failed",
        commands := [
          { command := "echo hi", exit_code := 0, stdout := "hi", stderr := "",
            duration_ms := 1.0, expected_pattern := some "hi",
            pattern_matched := some true, recording_path := none }] }]
    summary := { total_demos := 1, passed_demos := 0, failed_demos := 1,
                 total_commands := 1, passed_commands := 0, failed_commands := 1 }
    errors := []
    spec_plan_summary := none
    git_commits := []
    agent_summaries := [] }

/-- C9 witness: the theorem applied to a concrete accepted report in which a
failed demo's pattern-matching command is still tallied as failed. -/
theorem failed_commands_propagate_witness :
    validate_semantic c9Report = [] ∧
    c9Report.summary.failed_commands =
      (c9Report.cli_evidence.map fun demo =>
        if demo.passed = false then (demo.commands.length : Int)
        else ((demo.commands.countP fun cmd =>
          cmd.pattern_matched == some false) : Int)).sum :=
  ⟨rfl, failed_commands_propagate c9Report rfl⟩

/-! ### `review_loop.run_review_loop` (C4) -/

/-- Embedding of `flow.types.ExitReason`. -/
inductive ExitReason
  | completed
  | failed
  | timedOut
  | interrupted
  | maxRetriesExceeded
deriving DecidableEq

/-- Result of one `flow.run` agent invocation (the fields `run_review_loop`
reads: `exit_reason`, `final_agent`, `report_file`). -/
structure RunResult where
  exit_reason : ExitReason
  final_agent : Option String
  report_file : Option String
deriving DecidableEq

/-- The external collaborators of the review loop: the `n`-th `flow.run`
invocation's outcome, the `n`-th `run_validation` outcome (pass flag and
output text), and the file system behind report paths. -/
structure AgentEnv where
  run : Nat → RunResult
  validate : Nat → Bool × String
  readFile : String → Option String

/-- Position of the execution in the two oracles: how many agent runs and
how many validation runs have happened. -/
structure OracleState where
  agentN : Nat
  valN : Nat
deriving DecidableEq

/-- Observable events of one review loop execution. -/
inductive REvent
  | reviewerRun (res : RunResult)
  | fixerRun (res : RunResult)
  | valFixerRun (res : RunResult)
  | validationRun (passed : Bool)
deriving DecidableEq

/-- Embedding of `review_loop.ReviewLoopConfig`. -/
structure ReviewLoopConfig where
  reviewer_agent : String
  fixer_agent : String
  reviewer_role : String
  fixer_role : String
  max_attempts : Nat := 3
  approval_marker : String := "REVIEW_RESULT: APPROVED"
  auto_retry : Nat := 3
  fail_flow_on_max_attempts : Bool := true

/-- Embedding of `review_loop.ReviewLoopResult`. -/
structure ReviewLoopResult where
  approved : Bool
  final_agent_id : Option String
  attempts : Nat
  report_file : Option String
deriving DecidableEq

/-- `check_review_approved` against the environment's file system: a falsy
(`None` or empty) path and a missing file both yield `False`. -/
def check_review_approved_env (env : AgentEnv) (report_file : Option String)
    (approval_marker : String) : Bool :=
  if pyTruthyStr report_file then
    check_review_approved (env.readFile (report_file.getD "")) approval_marker
  else
    false

/-- The `for val_attempt in range(max_attempts - 1)` body of
`review_loop._run_post_fix_validation_loop`: run the validation fixer, abort
on a non-`COMPLETED` exit, revalidate, and stop as soon as validation
passes.  Returns `none` when the loop exhausts its budget or a fixer fails
(Python `None`), otherwise the final agent id. -/
def postFixValidationAux (env : AgentEnv) :
    Nat → Option String → OracleState → Option (Option String) × OracleState × List REvent
  | 0, _, st => (none, st, [])
  | k + 1, current, st =>
    let res := env.run st.agentN
    let st1 : OracleState := { st with agentN := st.agentN + 1 }
    if res.exit_reason ≠ ExitReason.completed then
      (none, st1, [REvent.valFixerRun res])
    else
      let v := env.validate st1.valN
      let st2 : OracleState := { st1 with valN := st1.valN + 1 }
      if v.1 then
        (some res.final_agent, st2, [REvent.valFixerRun res, REvent.validationRun v.1])
      else
        let r := postFixValidationAux env k res.final_agent st2
        (r.1, r.2.1, REvent.valFixerRun res :: REvent.validationRun v.1 :: r.2.2)

/-- Embedding of `review_loop._run_post_fix_validation_loop`: one validation
up front, then the bounded fix-and-revalidate loop. -/
def post_fix_validation_loop (env : AgentEnv) (max_attempts : Nat)
    (last_agent_id : Option String) (st : OracleState) :
    Option (Option String) × OracleState × List REvent :=
  let v := env.validate st.valN
  let st1 : OracleState := { st with valN := st.valN + 1 }
  if v.1 then
    (some last_agent_id, st1, [REvent.validationRun v.1])
  else
    let r := postFixValidationAux env (max_attempts - 1) last_agent_id st1
    (r.1, r.2.1, REvent.validationRun v.1 :: r.2.2)

/-- Embedding of the `for attempt in range(config.max_attempts)` loop of
`review_loop.run_review_loop`, with `k` the remaining attempts: run the
reviewer, return on approval, run the fixer, abort on a non-`COMPLETED`
fixer exit, optionally run the post-fix validation loop (aborting when it
fails), then retry from the fixer's final agent. -/
def run_review_loop_aux (env : AgentEnv) (config : ReviewLoopConfig)
    (hasPostFixValidation : Bool) (max_validation_fix_attempts : Nat) :
    Nat → Option String → OracleState → ReviewLoopResult × OracleState × List REvent
  | 0, last, st =>
    (⟨false, last, config.max_attempts, none⟩, st, [])
  | k + 1, last, st =>
    let review := env.run st.agentN
    let st1 : OracleState := { st with agentN := st.agentN + 1 }
    if check_review_approved_env env review.report_file config.approval_marker then
      (⟨true, review.final_agent, config.max_attempts - k, review.report_file⟩, st1,
        [REvent.reviewerRun review])
    else
      let fix := env.run st1.agentN
      let st2 : OracleState := { st1 with agentN := st1.agentN + 1 }
      if fix.exit_reason ≠ ExitReason.completed then
        (⟨false, fix.final_agent, config.max_attempts - k, review.report_file⟩, st2,
          [REvent.reviewerRun review, REvent.fixerRun fix])
      else
        if hasPostFixValidation then
          let v := post_fix_validation_loop env max_validation_fix_attempts
            fix.final_agent st2
          match v.1 with
          | none =>
            (⟨false, fix.final_agent, config.max_attempts - k, review.report_file⟩,
              v.2.1, REvent.reviewerRun review :: REvent.fixerRun fix :: v.2.2)
          | some newLast =>
            let r := run_review_loop_aux env config hasPostFixValidation
              max_validation_fix_attempts k newLast v.2.1
            (r.1, r.2.1,
              REvent.reviewerRun review :: REvent.fixerRun fix :: v.2.2 ++ r.2.2)
        else
          let r := run_review_loop_aux env config hasPostFixValidation
            max_validation_fix_attempts k fix.final_agent st2
          (r.1, r.2.1, REvent.reviewerRun review :: REvent.fixerRun fix :: r.2.2)

/-- Embedding of `review_loop.run_review_loop`: the full loop from a fresh
oracle position, returning the result and the event trace.
`hasPostFixValidation` models supplying both `run_post_fix_validation` and
`validation_fix_input_fn`. -/
def run_review_loop (env : AgentEnv) (config : ReviewLoopConfig)
    (after_agent_id : Option String) (hasPostFixValidation : Bool)
    (max_validation_fix_attempts : Nat) : ReviewLoopResult × List REvent :=
  let r := run_review_loop_aux env config hasPostFixValidation
    max_validation_fix_attempts config.max_attempts after_agent_id ⟨0, 0⟩
  (r.1, r.2.2)

theorem postFixValidationAux_no_fixer (env : AgentEnv) :
    ∀ (k : Nat) (cur : Option String) (st : OracleState) (r : RunResult),
      REvent.fixerRun r ∉ (postFixValidationAux env k cur st).2.2 := by
  intro k
  induction k with
  | zero => intro cur st r h; simp [postFixValidationAux] at h
  | succ k ih =>
    intro cur st r h
    simp only [postFixValidationAux] at h
    by_cases hex : (env.run st.agentN).exit_reason ≠ ExitReason.completed
    · rw [if_pos hex] at h
      simp at h
    · rw [if_neg hex] at h
      by_cases hv : (env.validate (st.agentN + 1 |> fun a => st.valN)).1 = true
      all_goals {
        first
        | (rw [if_pos hv] at h; simp at h)
        | (rw [if_neg hv] at h
           simp only [List.mem_cons] at h
           rcases h with h | h | h
           · exact absurd h (by simp)
           · exact absurd h (by simp)
           · exact ih _ _ r h)
      }

theorem post_fix_validation_loop_no_fixer (env : AgentEnv) (m : Nat)
    (cur : Option String) (st : OracleState) (r : RunResult) :
    REvent.fixerRun r ∉ (post_fix_validation_loop env m cur st).2.2 := by
  intro h
  simp only [post_fix_validation_loop] at h
  by_cases hv : (env.validate st.valN).1 = true
  · rw [if_pos hv] at h; simp at h
  · rw [if_neg hv] at h
    simp only [List.mem_cons] at h
    rcases h with h | h
    · exact absurd h (by simp)
    · exact postFixValidationAux_no_fixer env _ _ _ r h

/-- Shape of a review-loop trace: either every review-fixer run in it has
exit reason `COMPLETED`, or the loop aborted — the result is non-approved
and the trace ends at the failing fixer run, with every earlier fixer run
completed. -/
theorem run_review_loop_aux_shape (env : AgentEnv) (config : ReviewLoopConfig)
    (hp : Bool) (mv : Nat) :
    ∀ (k : Nat) (last : Option String) (st : OracleState),
      (∀ r, REvent.fixerRun r ∈ (run_review_loop_aux env config hp mv k last st).2.2 →
        r.exit_reason = ExitReason.completed) ∨
      ((run_review_loop_aux env config hp mv k last st).1.approved = false ∧
        ∃ t r, (run_review_loop_aux env config hp mv k last st).2.2 =
            t ++ [REvent.fixerRun r] ∧
          r.exit_reason ≠ ExitReason.completed ∧
          ∀ r', REvent.fixerRun r' ∈ t → r'.exit_reason = ExitReason.completed) := by
  intro k
  induction k with
  | zero =>
    intro last st
    left
    intro r hr
    simp [run_review_loop_aux] at hr
  | succ k ih =>
    intro last st
    simp only [run_review_loop_aux]
    split
    · -- reviewer approved: trace is a single reviewer event
      left
      intro r hr
      simp at hr
    · split
      · -- fixer failed: non-approved, trace ends at the failing fixer
        rename_i hfix
        right
        exact ⟨rfl, [REvent.reviewerRun (env.run st.agentN)], _, rfl, hfix, by simp⟩
      · rename_i hfix
        rw [not_not] at hfix
        split
        · -- post-fix validation configured
          split
          · -- validation loop failed: all fixer runs in the trace completed
            left
            intro r hr
            simp at hr
            rcases hr with hr | hr
            · rw [hr]; exact hfix
            · exact absurd hr (post_fix_validation_loop_no_fixer env _ _ _ r)
          · -- validation loop succeeded: recurse
            rename_i newLast hveq
            rcases ih newLast _ with hall | ⟨happr, t, r, heq, hne, hcomp⟩
            · left
              intro r hr
              simp at hr
              rcases hr with hr | hr | hr
              · rw [hr]; exact hfix
              · exact absurd hr (post_fix_validation_loop_no_fixer env _ _ _ r)
              · exact hall r hr
            · right
              refine ⟨happr, REvent.reviewerRun (env.run st.agentN) ::
                REvent.fixerRun (env.run (st.agentN + 1)) ::
                (post_fix_validation_loop env mv
                  (env.run (st.agentN + 1)).final_agent
                  ⟨st.agentN + 1 + 1, st.valN⟩).2.2 ++ t, r, ?_, hne, ?_⟩
              · simp only [List.cons_append, List.append_assoc]
                rw [heq]
              · intro r' hr'
                simp at hr'
                rcases hr' with hr' | hr' | hr'
                · rw [hr']; exact hfix
                · exact absurd hr' (post_fix_validation_loop_no_fixer env _ _ _ r')
                · exact hcomp r' hr'
        · -- no post-fix validation: recurse directly
          rcases ih (env.run (st.agentN + 1)).final_agent
              ⟨st.agentN + 1 + 1, st.valN⟩ with hall | ⟨happr, t, r, heq, hne, hcomp⟩
          · left
            intro r hr
            simp at hr
            rcases hr with hr | hr
            · rw [hr]; exact hfix
            · exact hall r hr
          · right
            refine ⟨happr, REvent.reviewerRun (env.run st.agentN) ::
              REvent.fixerRun (env.run (st.agentN + 1)) :: t, r, ?_, hne, ?_⟩
            · simp only [List.cons_append]
              rw [heq]
            · intro r' hr'
              simp at hr'
              rcases hr' with hr' | hr'
              · rw [hr']; exact hfix
              · exact hcomp r' hr'

/-- C4: within one run of the review loop, if a fixer agent finishes with an
exit reason other than `COMPLETED`, the loop returns a non-approved result
and the failing fixer run is the last event of the trace — the fixer is not
invoked again and no further review attempt happens in that loop. -/
theorem review_loop_fixer_failure_aborts (env : AgentEnv) (config : ReviewLoopConfig)
    (after : Option String) (hasPostFix : Bool) (maxValFix : Nat)
    (h : ∃ r, REvent.fixerRun r ∈ (run_review_loop env config after hasPostFix maxValFix).2 ∧
      r.exit_reason ≠ ExitReason.completed) :
    (run_review_loop env config after hasPostFix maxValFix).1.approved = false ∧
    ∃ t r, (run_review_loop env config after hasPostFix maxValFix).2 =
        t ++ [REvent.fixerRun r] ∧
      r.exit_reason ≠ ExitReason.completed ∧
      ∀ r', REvent.fixerRun r' ∈ t → r'.exit_reason = ExitReason.completed := by
  obtain ⟨r, hmem, hne⟩ := h
  rcases run_review_loop_aux_shape env config hasPostFix maxValFix
    config.max_attempts after ⟨0, 0⟩ with hall | hright
  · exact absurd (hall r hmem) hne
  · exact hright

/-- Review-loop environment for the C4 witness: the reviewer reports issues,
then the fixer fails. -/
def c4Env : AgentEnv :=
  { run := fun n =>
      if n = 0 then ⟨ExitReason.completed, some "agent-1", some "report-1"⟩
      else ⟨ExitReason.failed, some "agent-2", none⟩
    validate := fun _ => (true, "")
    readFile := fun f => if f = "report-1" then some "Issues were found." else none }

/-- A concrete review-loop configuration (the `implement.py` step-review pair). -/
def c4Config : ReviewLoopConfig :=
  { reviewer_agent := "reviewer", fixer_agent := "builder",
    reviewer_role := "reviewer", fixer_role := "review-fixer" }

/-- C4 witness: on the concrete environment whose fixer fails, the loop
returns non-approved. -/
theorem review_loop_fixer_failure_aborts_witness :
    (run_review_loop c4Env c4Config none false 3).1.approved = false :=
  (review_loop_fixer_failure_aborts c4Env c4Config none false 3
    ⟨⟨ExitReason.failed, some "agent-2", none⟩, by decide, by decide⟩).1

/-! ### `implement.py` per-step driver (C2, C3) -/

/-- The approval marker literal: `plan.py`'s `REVIEW_APPROVAL_MARKER`, also
inlined in `implement.py`'s report checks. -/
def REVIEW_APPROVAL_MARKER : String := "REVIEW_RESULT: APPROVED"

/-- The naive substring approval classification used by `implement.py`
(`"REVIEW_RESULT: APPROVED" in report_content`, lines 249 and 274) and by
`plan.py` (`REVIEW_APPROVAL_MARKER in report_content`, line 812): a plain
`in` test with no standalone-marker filtering. -/
def naiveApproved (content : String) : Bool :=
  containsSubS content REVIEW_APPROVAL_MARKER

/-- External collaborators and persisted-status lookups of one
`implement.py` step iteration: agent/validation oracles, the file system
(report files referenced by results are assumed readable — `implement.py`
reads them without a `FileNotFoundError` handler), and the
`has_completed_agent` / `get_last_agent_id` answers for this step. -/
structure ImplEnv where
  run : Nat → RunResult
  validate : Nat → Bool × String
  readFile : String → String
  hasCompletedBuilder : Bool
  hasCompletedReviewer : Bool
  lastBuilderAgentId : Option String
  lastReviewerAgentId : Option String

/-- Observable events of one `implement.py` step iteration. -/
inductive IEvent
  | agentRun (role : String) (after : Option String) (res : RunResult)
  | validationRun (passed : Bool)
  | stepMarkedCompleted
deriving DecidableEq

/-- Oracle position for the `implement.py` step model. -/
structure ImplState where
  agentN : Nat
  valN : Nat
deriving DecidableEq

/-- Embedding of `implement.py` lines 183–203: if a completed builder record
exists, skip the builder and adopt its recorded agent id as the chain tip;
otherwise run the builder, exiting the flow (`none`) when it does not
complete. -/
def builderPhase (env : ImplEnv) (last : Option String) (st : ImplState) :
    Option (Option String × ImplState × List IEvent) :=
  if env.hasCompletedBuilder then
    some (env.lastBuilderAgentId, st, [])
  else
    let res := env.run st.agentN
    let st1 : ImplState := { st with agentN := st.agentN + 1 }
    if res.exit_reason ≠ ExitReason.completed then none
    else some (res.final_agent, st1, [IEvent.agentRun "builder" last res])

/-- Embedding of `implement.py` lines 205–224: always run validation; on
failure run one `validation-fixer` (its exit reason is not checked) and
re-validate, proceeding even if validation still fails. -/
def validationPhase (env : ImplEnv) (last : Option String) (st : ImplState) :
    Option String × ImplState × List IEvent :=
  let v := env.validate st.valN
  let st1 : ImplState := { st with valN := st.valN + 1 }
  if v.1 then (last, st1, [IEvent.validationRun v.1])
  else
    let fix := env.run st1.agentN
    let st2 : ImplState := { st1 with agentN := st1.agentN + 1 }
    let v2 := env.validate st2.valN
    let st3 : ImplState := { st2 with valN := st2.valN + 1 }
    (fix.final_agent, st3,
      [IEvent.validationRun v.1, IEvent.agentRun "validation-fixer" last fix,
        IEvent.validationRun v2.1])

/-- Embedding of the `for attempt in range(3)` fix loop of `implement.py`
lines 254–278: run a `review-fixer` chained after the current review, then
re-review chained after the fixer; break when the new report exists and the
naive substring check finds the marker. -/
def implReviewFixLoop (env : ImplEnv) :
    Nat → RunResult → ImplState → RunResult × ImplState × List IEvent
  | 0, review, st => (review, st, [])
  | k + 1, review, st =>
    let fix := env.run st.agentN
    let st1 : ImplState := { st with agentN := st.agentN + 1 }
    let review2 := env.run st1.agentN
    let st2 : ImplState := { st1 with agentN := st1.agentN + 1 }
    let evs := [IEvent.agentRun "review-fixer" review.final_agent fix,
      IEvent.agentRun "reviewer" fix.final_agent review2]
    if pyTruthyStr review2.report_file &&
        naiveApproved (env.readFile (review2.report_file.getD "")) then
      (review2, st2, evs)
    else
      let r := implReviewFixLoop env k review2 st2
      (r.1, r.2.1, evs ++ r.2.2)

/-- Embedding of `implement.py` lines 226–284: if a completed reviewer
record exists, skip review, adopt the recorded reviewer id and mark the
step completed; otherwise run the reviewer, classify approval by the naive
substring check, run the fix loop when unapproved, and mark the step
completed. -/
def reviewerPhase (env : ImplEnv) (last : Option String) (st : ImplState) :
    Option String × ImplState × List IEvent :=
  if env.hasCompletedReviewer then
    (env.lastReviewerAgentId, st, [IEvent.stepMarkedCompleted])
  else
    let review := env.run st.agentN
    let st1 : ImplState := { st with agentN := st.agentN + 1 }
    if pyTruthyStr review.report_file then
      if naiveApproved (env.readFile (review.report_file.getD "")) then
        (review.final_agent, st1,
          [IEvent.agentRun "reviewer" last review, IEvent.stepMarkedCompleted])
      else
        let r := implReviewFixLoop env 3 review st1
        (r.1.final_agent, r.2.1,
          IEvent.agentRun "reviewer" last review :: r.2.2 ++ [IEvent.stepMarkedCompleted])
    else
      (review.final_agent, st1,
        [IEvent.agentRun "reviewer" last review, IEvent.stepMarkedCompleted])

/-- One whole step iteration of `implement.py`'s main loop (lines 177–284):
builder phase, then validation phase, then review phase.  `none` models
`sys.exit(1)` on builder failure. -/
def implementStepBody (env : ImplEnv) (last : Option String) :
    Option (Option String × List IEvent) :=
  match builderPhase env last ⟨0, 0⟩ with
  | none => none
  | some b =>
    let v := validationPhase env b.1 b.2.1
    let r := reviewerPhase env v.1 v.2.1
    some (r.1, b.2.2 ++ v.2.2 ++ r.2.2)

theorem implReviewFixLoop_roles (env : ImplEnv) :
    ∀ (k : Nat) (review : RunResult) (st : ImplState) (role : String)
      (aft : Option String) (res : RunResult),
      IEvent.agentRun role aft res ∈ (implReviewFixLoop env k review st).2.2 →
      role = "review-fixer" ∨ role = "reviewer" := by
  intro k
  induction k with
  | zero =>
    intro review st role aft res h
    simp [implReviewFixLoop] at h
  | succ k ih =>
    intro review st role aft res h
    simp only [implReviewFixLoop] at h
    split at h
    · simp at h
      rcases h with ⟨hrole, -⟩ | ⟨hrole, -⟩
      · exact Or.inl hrole
      · exact Or.inr hrole
    · simp at h
      rcases h with ⟨hrole, -⟩ | ⟨hrole, -⟩ | h
      · exact Or.inl hrole
      · exact Or.inr hrole
      · exact ih _ _ role aft res h

theorem validationPhase_roles (env : ImplEnv) (last : Option String) (st : ImplState)
    (role : String) (aft : Option String) (res : RunResult)
    (h : IEvent.agentRun role aft res ∈ (validationPhase env last st).2.2) :
    role = "validation-fixer" := by
  simp only [validationPhase] at h
  split at h
  · simp at h
  · simp at h
    exact h.1

theorem validationPhase_runs_validation (env : ImplEnv) (last : Option String)
    (st : ImplState) :
    IEvent.validationRun (env.validate st.valN).1 ∈ (validationPhase env last st).2.2 := by
  simp only [validationPhase]
  split
  · simp
  · simp

theorem reviewerPhase_roles (env : ImplEnv) (last : Option String) (st : ImplState)
    (role : String) (aft : Option String) (res : RunResult)
    (h : IEvent.agentRun role aft res ∈ (reviewerPhase env last st).2.2) :
    role = "reviewer" ∨ role = "review-fixer" := by
  simp only [reviewerPhase] at h
  split at h
  · simp at h
  · split at h
    · split at h
      · simp at h
        exact Or.inl h.1
      · simp at h
        rcases h with ⟨hrole, -⟩ | h
        · exact Or.inl hrole
        · rcases implReviewFixLoop_roles env 3 _ _ role aft res h with hr | hr
          · exact Or.inr hr
          · exact Or.inl hr
    · simp at h
      exact Or.inl h.1

theorem reviewerPhase_skips (env : ImplEnv) (last : Option String) (st : ImplState)
    (hr : env.hasCompletedReviewer = true) :
    (reviewerPhase env last st).2.2 = [IEvent.stepMarkedCompleted] := by
  simp [reviewerPhase, hr]

/-- C3: on resume, when PersistentFlowStatus holds a completed builder record
for the step, the driver skips the builder and adopts the recorded builder
agent id as the chain tip, while validation still runs for that step; and a
completed reviewer record likewise causes the review stage to be skipped
(no reviewer-role agent runs). -/
theorem implement_resume_skips (env : ImplEnv) (last : Option String)
    (hb : env.hasCompletedBuilder = true) :
    builderPhase env last ⟨0, 0⟩ = some (env.lastBuilderAgentId, ⟨0, 0⟩, []) ∧
    ∃ out, implementStepBody env last = some out ∧
      (∀ aft res, IEvent.agentRun "builder" aft res ∉ out.2) ∧
      (∃ p, IEvent.validationRun p ∈ out.2) ∧
      (env.hasCompletedReviewer = true →
        ∀ role aft res, IEvent.agentRun role aft res ∈ out.2 →
          role = "validation-fixer") := by
  have hbp : builderPhase env last ⟨0, 0⟩ = some (env.lastBuilderAgentId, ⟨0, 0⟩, []) := by
    simp [builderPhase, hb]
  refine ⟨hbp, ?_⟩
  refine ⟨((reviewerPhase env (validationPhase env env.lastBuilderAgentId ⟨0, 0⟩).1
      (validationPhase env env.lastBuilderAgentId ⟨0, 0⟩).2.1).1,
    [] ++ (validationPhase env env.lastBuilderAgentId ⟨0, 0⟩).2.2 ++
      (reviewerPhase env (validationPhase env env.lastBuilderAgentId ⟨0, 0⟩).1
        (validationPhase env env.lastBuilderAgentId ⟨0, 0⟩).2.1).2.2), ?_, ?_, ?_, ?_⟩
  · simp only [implementStepBody, hbp]
  · intro aft res hmem
    simp only [List.nil_append, List.mem_append] at hmem
    rcases hmem with hmem | hmem
    · exact absurd (validationPhase_roles env _ _ _ aft res hmem) (by decide)
    · rcases reviewerPhase_roles env _ _ _ aft res hmem with hr | hr
      · exact absurd hr (by decide)
      · exact absurd hr (by decide)
  · refine ⟨(env.validate 0).1, ?_⟩
    simp only [List.nil_append, List.mem_append]
    exact Or.inl (validationPhase_runs_validation env env.lastBuilderAgentId ⟨0, 0⟩)
  · intro hrev role aft res hmem
    simp only [List.nil_append, List.mem_append] at hmem
    rcases hmem with hmem | hmem
    · exact validationPhase_roles env _ _ _ aft res hmem
    · rw [reviewerPhase_skips env _ _ hrev] at hmem
      simp at hmem

/-- C3 witness environment: completed builder and reviewer records for the
step, failing validation so a validation fixer runs. -/
def c3Env : ImplEnv :=
  { run := fun _ => ⟨ExitReason.completed, some "fixer-1", none⟩
    validate := fun n => (n ≠ 0, "1 error")
    readFile := fun _ => ""
    hasCompletedBuilder := true
    hasCompletedReviewer := true
    lastBuilderAgentId := some "builder-7"
    lastReviewerAgentId := some "reviewer-9" }

/-- C3 witness: on a resumed step with completed builder and reviewer
records, the builder phase adopts the recorded builder id. -/
theorem implement_resume_skips_witness :
    builderPhase c3Env none ⟨0, 0⟩ = some (c3Env.lastBuilderAgentId, ⟨0, 0⟩, []) :=
  (implement_resume_skips c3Env none rfl).1

/-- A reviewer report whose only occurrence of the approval marker is
backtick-quoted explanatory text. -/
def c2ReportText : String :=
  "Issues remain. To approve, write `REVIEW_RESULT: APPROVED` as standalone text."

/-- Driver environment for the quoted-marker report: the reviewer completes
and its report file holds `c2ReportText`. -/
def c2Env : ImplEnv :=
  { run := fun _ => ⟨ExitReason.completed, some "rev-1", some "report-1"⟩
    validate := fun _ => (true, "")
    readFile := fun _ => c2ReportText
    hasCompletedBuilder := false
    hasCompletedReviewer := false
    lastBuilderAgentId := none
    lastReviewerAgentId := none }

/-- C2 (divergence evidence): on a report whose every marker occurrence is
backtick-quoted, the naive substring classification of `implement.py` /
`plan.py` returns `true` while the §4.2 standalone-marker check returns
`false`; consequently `implement.py`'s review phase takes the approved path
(no `review-fixer` run, step marked completed immediately). -/
theorem naive_approval_diverges_from_standalone :
    naiveApproved c2ReportText = true ∧
    allOccurrencesQuoted c2ReportText.toList REVIEW_APPROVAL_MARKER.toList ∧
    isStandaloneMarker c2ReportText REVIEW_APPROVAL_MARKER = false ∧
    (reviewerPhase c2Env none ⟨0, 0⟩).2.2 =
      [IEvent.agentRun "reviewer" none
        ⟨ExitReason.completed, some "rev-1", some "report-1"⟩,
       IEvent.stepMarkedCompleted] :=
  ⟨by decide, by unfold allOccurrencesQuoted; decide, by decide, by decide⟩

/-- Review-loop oracle for the failed-fixer scenario: the reviewer
completes with a report holding no approval marker, then the fixer
fails. -/
def c4FailLoopEnv : AgentEnv :=
  { run := fun n =>
      if n = 0 then ⟨ExitReason.completed, some "rev-1", some "report-1"⟩
      else ⟨ExitReason.failed, some "fix-1", none⟩
    validate := fun _ => (true, "")
    readFile := fun f => if f = "report-1" then some "Issues remain." else none }

/-- Driver environment for the same scenario inside `implement.py`'s step
loop: the reviewer finds issues, the `review-fixer` fails, and the
re-review's report carries the approval marker. -/
def c4FailEnv : ImplEnv :=
  { run := fun n =>
      if n = 0 then ⟨ExitReason.completed, some "rev-1", some "report-1"⟩
      else if n = 1 then ⟨ExitReason.failed, some "fix-1", none⟩
      else ⟨ExitReason.completed, some "rev-2", some "report-2"⟩
    validate := fun _ => (true, "")
    readFile := fun f =>
      if f = "report-1" then "Issues remain."
      else if f = "report-2" then "REVIEW_RESULT: APPROVED"
      else ""
    hasCompletedBuilder := false
    hasCompletedReviewer := false
    lastBuilderAgentId := none
    lastReviewerAgentId := none }

/-- **C4** (divergence evidence): on the scenario where the reviewer finds
issues and the review-fixer fails, `review_loop.run_review_loop` checks the
fixer's exit reason and aborts — non-approved, the failed fixer run is the
last event, no further review attempt — as the claim requires; but
`implement.py`'s inline fix loop (lines 252–278, also cited by the claim)
never checks the fixer's exit reason: it runs another reviewer immediately
after the failed fixer and, the re-review's report holding the marker, ends
the step approved and marked completed. -/
theorem implement_fix_loop_ignores_fixer_failure :
    (run_review_loop c4FailLoopEnv c4Config none false 3).1.approved = false ∧
    (run_review_loop c4FailLoopEnv c4Config none false 3).2 =
      [REvent.reviewerRun ⟨ExitReason.completed, some "rev-1", some "report-1"⟩,
       REvent.fixerRun ⟨ExitReason.failed, some "fix-1", none⟩] ∧
    (reviewerPhase c4FailEnv none ⟨0, 0⟩).2.2 =
      [IEvent.agentRun "reviewer" none
        ⟨ExitReason.completed, some "rev-1", some "report-1"⟩,
       IEvent.agentRun "review-fixer" (some "rev-1")
        ⟨ExitReason.failed, some "fix-1", none⟩,
       IEvent.agentRun "reviewer" (some "fix-1")
        ⟨ExitReason.completed, some "rev-2", some "report-2"⟩,
       IEvent.stepMarkedCompleted] :=
  ⟨by decide, by decide, by decide⟩

/-! ### `validation_utils.truncate_validation_output` (C5) -/

/-- Case-insensitive prefix test (for `re.IGNORECASE` literals). -/
def isPrefixOfCI (lit s : List Char) : Bool :=
  (lit.map pyLower).isPrefixOf (s.map pyLower)

/-- `re.match(r"^={50,}$", line)` on a single line: at least fifty `=` and
nothing else (the `$` anchor; a split line holds no newline). -/
def isSectionSeparatorLine (line : List Char) : Bool :=
  line.length ≥ 50 && line.all (· = '=')

/-- `re.match(r"^=+\s*\d+\s+(failed|passed)", line)`.  Each quantified class
is followed by a token starting outside that class, so the greedy match is
deterministic: maximal `=` run, maximal whitespace, maximal digits, at
least one whitespace, then the literal. -/
def matchSummaryCounts (line : List Char) : Bool :=
  match line with
  | '=' :: rest =>
    let r2 := (rest.dropWhile (· = '=')).dropWhile pyIsSpace
    let digits := r2.takeWhile pyIsDigit
    let r3 := r2.dropWhile pyIsDigit
    let ws := r3.takeWhile pyIsSpace
    let r4 := r3.dropWhile pyIsSpace
    !digits.isEmpty && !ws.isEmpty &&
      ("failed".toList.isPrefixOf r4 || "passed".toList.isPrefixOf r4)
  | _ => false

/-- `re.match(r"^=+\s*(short test summary|FAILURES)", line, re.IGNORECASE)`,
deterministic for the same reason. -/
def matchShortSummaryHeader (line : List Char) : Bool :=
  match line with
  | '=' :: rest =>
    let r2 := (rest.dropWhile (· = '=')).dropWhile pyIsSpace
    isPrefixOfCI "short test summary".toList r2 || isPrefixOfCI "FAILURES".toList r2
  | _ => false

/-- Embedding of `validation_utils._is_summary_line`: the two anchored
pytest-summary regexes, or the final summary test (contains `"passed"`,
`"failed"` or `"error"`, and `"in "`). -/
def is_summary_line (line : List Char) : Bool :=
  matchSummaryCounts line || matchShortSummaryHeader line ||
    (containsSub line "passed".toList &&
      (containsSub line "failed".toList || containsSub line "error".toList) &&
      containsSub line "in ".toList)

/-- `re.match(r"^[\w\s]+:\s*(PASS|FAIL)", line)`, deterministic because `:`
is outside `[\w\s]` and `P`/`F` are not whitespace. -/
def matchStatusLine (line : List Char) : Bool :=
  let cls := fun c => pyIsWord c || pyIsSpace c
  let r1 := line.takeWhile cls
  let r2 := line.dropWhile cls
  !r1.isEmpty &&
    (match r2 with
     | ':' :: r3 =>
       let r4 := r3.dropWhile pyIsSpace
       "PASS".toList.isPrefixOf r4 || "FAIL".toList.isPrefixOf r4
     | _ => false)

/-- Embedding of `validation_utils._is_section_boundary` (its `lines` and
`index` parameters are unused by the source). -/
def is_section_boundary (line : List Char) : Bool :=
  isSectionSeparatorLine line || matchStatusLine line

/-- `"FAILED" in line and "::" in line`: the test-failure line format. -/
def isFailedTestLine (line : List Char) : Bool :=
  containsSub line "FAILED".toList && containsSub line "::".toList

/-- The truncation notice inserted by `truncate_validation_output`. -/
def noticeLine (skipped : Int) : List Char :=
  ("[... " ++ toString skipped ++ " more FAILED tests not shown - fix the above first ...]").toList

/-- `output.split("\n")`. -/
def splitNl : List Char → List (List Char)
  | [] => [[]]
  | c :: rest =>
    match splitNl rest with
    | [] => [[c]]
    | l :: ls => if c = '\n' then [] :: l :: ls else (c :: l) :: ls

/-- `"\n".join(result_lines)`. -/
def joinNl : List (List Char) → List Char
  | [] => []
  | [l] => l
  | l :: ls => l ++ '\n' :: joinNl ls

/-- The second pass of `truncate_validation_output` (its `while` loop over
`lines`): `inPy` is `in_pytest_section`, `fc` is `failure_count`, `total`
the pre-counted total of FAILED test lines, `maxShown`
`max_failures_shown`.  Section separators update the pytest flag from the
following line and are always kept; inside the pytest section, FAILED test
lines are kept up to `maxShown` with the notice inserted at the first
excess one, summary lines are always kept, other lines are kept until
truncation starts or when they are section boundaries; outside the pytest
section everything is kept. -/
def truncateLinesGo (maxShown total : Nat) :
    List (List Char) → Bool → Nat → List (List Char)
  | [], _, _ => []
  | line :: rest, inPy, fc =>
    if isSectionSeparatorLine line then
      let inPy2 :=
        match rest with
        | next :: _ =>
          if containsSub next "Running: Pytest".toList then true
          else if containsSub next "Running:".toList then false
          else inPy
        | [] => inPy
      line :: truncateLinesGo maxShown total rest inPy2 fc
    else if inPy then
      if isFailedTestLine line then
        if fc + 1 ≤ maxShown then
          line :: truncateLinesGo maxShown total rest inPy (fc + 1)
        else if fc + 1 = maxShown + 1 then
          [] :: noticeLine ((total : Int) - (maxShown : Int)) :: [] ::
            truncateLinesGo maxShown total rest inPy (fc + 1)
        else truncateLinesGo maxShown total rest inPy (fc + 1)
      else if is_summary_line line then
        line :: truncateLinesGo maxShown total rest inPy fc
      else if fc ≤ maxShown then
        line :: truncateLinesGo maxShown total rest inPy fc
      else if is_section_boundary line then
        line :: truncateLinesGo maxShown total rest inPy fc
      else truncateLinesGo maxShown total rest inPy fc
    else
      line :: truncateLinesGo maxShown total rest inPy fc

/-- The pre-count pass: total FAILED test lines in the raw input. -/
def countFailedLines (lines : List (List Char)) : Nat :=
  lines.countP isFailedTestLine

/-- Both passes over the split lines. -/
def truncate_validation_lines (lines : List (List Char)) (maxShown : Nat) :
    List (List Char) :=
  truncateLinesGo maxShown (countFailedLines lines) lines false 0

/-- Embedding of `validation_utils.truncate_validation_output`: empty input
returned as is; otherwise split, shape, join, and apply the final
`max_chars` cap with the generic truncation notice. -/
def truncate_validation_output (output : String)
    (max_failures_shown : Nat := 20) (max_chars : Nat := 12000) : String :=
  if output = "" then output
  else
    let lines := splitNl output.toList
    let result := joinNl (truncate_validation_lines lines max_failures_shown)
    if result.length > max_chars then
      String.mk (result.take max_chars ++ "\n\n[... output truncated ...]".toList)
    else String.mk result

/-- The scan deciding which lines sit inside a pytest section, as a
predicate: every FAILED test line of the input is inside one. -/
def allFailedInPytest : List (List Char) → Bool → Bool
  | [], _ => true
  | line :: rest, inPy =>
    if isSectionSeparatorLine line then
      let inPy2 :=
        match rest with
        | next :: _ =>
          if containsSub next "Running: Pytest".toList then true
          else if containsSub next "Running:".toList then false
          else inPy
        | [] => inPy
      allFailedInPytest rest inPy2
    else
      (!isFailedTestLine line || inPy) && allFailedInPytest rest inPy

theorem containsSub_head_mem {l : List Char} {c : Char} {cs : List Char}
    (h : containsSub l (c :: cs) = true) : c ∈ l := by
  unfold containsSub at h
  rw [List.any_eq_true] at h
  obtain ⟨i, -, hocc⟩ := h
  unfold occursAt at hocc
  obtain ⟨t, ht⟩ := List.isPrefixOf_iff_prefix.mp hocc
  have : c ∈ l.drop i := by
    rw [← ht]
    simp
  exact List.mem_of_mem_drop this

theorem sep_not_failed {l : List Char} (h : isSectionSeparatorLine l = true) :
    isFailedTestLine l = false := by
  rw [Bool.eq_false_iff]
  intro hf
  unfold isFailedTestLine at hf
  rw [Bool.and_eq_true] at hf
  have hmem : 'F' ∈ l := containsSub_head_mem (by exact_mod_cast hf.1)
  unfold isSectionSeparatorLine at h
  rw [Bool.and_eq_true, List.all_eq_true] at h
  have := h.2 'F' hmem
  simp at this

theorem digitChar_lt_ten_ne_colon (k : Nat) (hk : k < 10) : Nat.digitChar k ≠ ':' := by
  interval_cases k <;> decide

theorem toDigitsCore_chars (b : Nat) (hb : 0 < b) :
    ∀ (f n : Nat) (ds : List Char) (c : Char),
      c ∈ Nat.toDigitsCore b f n ds → c ∈ ds ∨ ∃ k, k < b ∧ c = Nat.digitChar k := by
  intro f
  induction f with
  | zero =>
    intro n ds c h
    exact Or.inl (by simpa [Nat.toDigitsCore] using h)
  | succ f ih =>
    intro n ds c h
    simp only [Nat.toDigitsCore] at h
    split at h
    · rcases List.mem_cons.mp h with h | h
      · exact Or.inr ⟨n % b, Nat.mod_lt _ hb, h⟩
      · exact Or.inl h
    · rcases ih _ _ _ h with h | h
      · rcases List.mem_cons.mp h with h | h
        · exact Or.inr ⟨n % b, Nat.mod_lt _ hb, h⟩
        · exact Or.inl h
      · exact Or.inr h

theorem colon_not_mem_natRepr (n : Nat) : ':' ∉ (Nat.repr n).toList := by
  intro h
  have hmem : ':' ∈ Nat.toDigits 10 n := by
    simpa [Nat.repr, String.toList, List.asString] using h
  rcases toDigitsCore_chars 10 (by omega) _ _ _ _ (by simpa [Nat.toDigits] using hmem)
    with h | ⟨k, hk, hc⟩
  · simp at h
  · exact digitChar_lt_ten_ne_colon k hk hc.symm

theorem colon_not_mem_intToString (n : Int) : ':' ∉ (toString n).toList := by
  cases n with
  | ofNat m => exact colon_not_mem_natRepr m
  | negSucc m =>
    intro h
    have : (toString (Int.negSucc m)).toList = '-' :: (Nat.repr (m + 1)).toList := by
      rfl
    rw [this] at h
    rcases List.mem_cons.mp h with h | h
    · simp at h
    · exact colon_not_mem_natRepr (m + 1) h

theorem notice_not_failed (n : Int) : isFailedTestLine (noticeLine n) = false := by
  rw [Bool.eq_false_iff]
  intro hf
  unfold isFailedTestLine at hf
  rw [Bool.and_eq_true] at hf
  have hmem : ':' ∈ noticeLine n := containsSub_head_mem (by exact_mod_cast hf.2)
  unfold noticeLine at hmem
  rw [show ("[... " ++ toString n ++ " more FAILED tests not shown - fix the above first ...]").toList =
      "[... ".toList ++ (toString n).toList ++ " more FAILED tests not shown - fix the above first ...]".toList from by
    simp [String.toList]] at hmem
  rcases List.mem_append.mp hmem with hmem | hmem
  · rcases List.mem_append.mp hmem with hmem | hmem
    · simp at hmem
    · exact colon_not_mem_intToString n hmem
  · simp at hmem

theorem empty_not_failed : isFailedTestLine ([] : List Char) = false := by decide

theorem go_keeps_summary (maxShown total : Nat) :
    ∀ (lines : List (List Char)) (inPy : Bool) (fc : Nat) (l : List Char),
      l ∈ lines → is_summary_line l = true → isFailedTestLine l = false →
      l ∈ truncateLinesGo maxShown total lines inPy fc := by
  intro lines
  induction lines with
  | nil =>
    intro inPy fc l h
    exact absurd h (List.not_mem_nil l)
  | cons line rest ih =>
    intro inPy fc l hmem hsum hnf
    rcases List.mem_cons.mp hmem with heq | hmem
    · subst heq
      simp only [truncateLinesGo]
      split
      · exact List.mem_cons_self _ _
      · split
        · rw [hnf]
          simp only [Bool.false_eq_true, if_false, hsum, if_true]
          exact List.mem_cons_self _ _
        · exact List.mem_cons_self _ _
    · simp only [truncateLinesGo]
      split
      · exact List.mem_cons_of_mem _ (ih _ _ l hmem hsum hnf)
      · split
        · split
          · split
            · exact List.mem_cons_of_mem _ (ih _ _ l hmem hsum hnf)
            · split
              · exact List.mem_cons_of_mem _ (List.mem_cons_of_mem _
                  (List.mem_cons_of_mem _ (ih _ _ l hmem hsum hnf)))
              · exact ih _ _ l hmem hsum hnf
          · split
            · exact List.mem_cons_of_mem _ (ih _ _ l hmem hsum hnf)
            · split
              · exact List.mem_cons_of_mem _ (ih _ _ l hmem hsum hnf)
              · split
                · exact List.mem_cons_of_mem _ (ih _ _ l hmem hsum hnf)
                · exact ih _ _ l hmem hsum hnf
        · exact List.mem_cons_of_mem _ (ih _ _ l hmem hsum hnf)

theorem go_countFailed (maxShown total : Nat) :
    ∀ (lines : List (List Char)) (inPy : Bool) (fc : Nat),
      allFailedInPytest lines inPy = true →
      (truncateLinesGo maxShown total lines inPy fc).countP isFailedTestLine =
        min (maxShown - fc) (lines.countP isFailedTestLine) := by
  intro lines
  induction lines with
  | nil =>
    intro inPy fc h
    simp [truncateLinesGo]
  | cons line rest ih =>
    intro inPy fc h
    simp only [truncateLinesGo]
    simp only [allFailedInPytest] at h
    by_cases hsep : isSectionSeparatorLine line = true
    · rw [if_pos hsep]
      rw [if_pos hsep] at h
      have hnf : ¬(isFailedTestLine line = true) := by
        rw [sep_not_failed hsep]; simp
      rw [List.countP_cons_of_neg isFailedTestLine _ hnf]
      rw [List.countP_cons_of_neg isFailedTestLine rest hnf]
      exact ih _ fc h
    · rw [if_neg hsep]
      rw [if_neg hsep, Bool.and_eq_true] at h
      obtain ⟨hline, hrest⟩ := h
      by_cases hin : inPy = true
      · rw [if_pos hin]
        by_cases hfl : isFailedTestLine line = true
        · rw [if_pos hfl]
          rw [List.countP_cons_of_pos isFailedTestLine rest hfl]
          by_cases hle : fc + 1 ≤ maxShown
          · rw [if_pos hle]
            rw [List.countP_cons_of_pos isFailedTestLine _ hfl]
            rw [ih _ _ hrest]
            omega
          · rw [if_neg hle]
            by_cases heq1 : fc + 1 = maxShown + 1
            · rw [if_pos heq1]
              rw [List.countP_cons_of_neg isFailedTestLine _
                (by rw [empty_not_failed]; simp)]
              rw [List.countP_cons_of_neg isFailedTestLine _
                (by rw [notice_not_failed]; simp)]
              rw [List.countP_cons_of_neg isFailedTestLine _
                (by rw [empty_not_failed]; simp)]
              rw [ih _ _ hrest]
              omega
            · rw [if_neg heq1]
              rw [ih _ _ hrest]
              omega
        · rw [if_neg hfl]
          have hcount : (line :: rest).countP isFailedTestLine =
              rest.countP isFailedTestLine :=
            List.countP_cons_of_neg isFailedTestLine rest hfl
          split
          · rw [List.countP_cons_of_neg isFailedTestLine _ hfl, ih _ _ hrest, hcount]
          · split
            · rw [List.countP_cons_of_neg isFailedTestLine _ hfl, ih _ _ hrest, hcount]
            · split
              · rw [List.countP_cons_of_neg isFailedTestLine _ hfl, ih _ _ hrest, hcount]
              · rw [ih _ _ hrest, hcount]
      · rw [if_neg hin]
        have hnf : ¬(isFailedTestLine line = true) := by
          rcases Bool.or_eq_true_iff.mp hline with h1 | h2
          · simpa using h1
          · exact absurd h2 hin
        rw [List.countP_cons_of_neg isFailedTestLine _ hnf, ih _ _ hrest,
          List.countP_cons_of_neg isFailedTestLine rest hnf]

theorem go_inserts_notice (maxShown total : Nat) :
    ∀ (lines : List (List Char)) (inPy : Bool) (fc : Nat),
      allFailedInPytest lines inPy = true →
      fc ≤ maxShown →
      maxShown < fc + lines.countP isFailedTestLine →
      noticeLine ((total : Int) - (maxShown : Int)) ∈
        truncateLinesGo maxShown total lines inPy fc := by
  intro lines
  induction lines with
  | nil =>
    intro inPy fc h hle hgt
    simp at hgt
    omega
  | cons line rest ih =>
    intro inPy fc h hle hgt
    simp only [truncateLinesGo]
    simp only [allFailedInPytest] at h
    by_cases hsep : isSectionSeparatorLine line = true
    · rw [if_pos hsep]
      rw [if_pos hsep] at h
      have hnf : ¬(isFailedTestLine line = true) := by
        rw [sep_not_failed hsep]; simp
      rw [List.countP_cons_of_neg isFailedTestLine rest hnf] at hgt
      exact List.mem_cons_of_mem _ (ih _ fc h hle hgt)
    · rw [if_neg hsep]
      rw [if_neg hsep, Bool.and_eq_true] at h
      obtain ⟨hline, hrest⟩ := h
      by_cases hin : inPy = true
      · rw [if_pos hin]
        by_cases hfl : isFailedTestLine line = true
        · rw [if_pos hfl]
          rw [List.countP_cons_of_pos isFailedTestLine rest hfl] at hgt
          by_cases hle1 : fc + 1 ≤ maxShown
          · rw [if_pos hle1]
            exact List.mem_cons_of_mem _ (ih _ (fc + 1) hrest hle1 (by omega))
          · rw [if_neg hle1]
            have heq1 : fc + 1 = maxShown + 1 := by omega
            rw [if_pos heq1]
            exact List.mem_cons_of_mem _ (List.mem_cons_self _ _)
        · rw [if_neg hfl]
          rw [List.countP_cons_of_neg isFailedTestLine rest hfl] at hgt
          split <;>
            exact List.mem_cons_of_mem _ (ih _ fc hrest hle hgt)
      · rw [if_neg hin]
        have hnf : ¬(isFailedTestLine line = true) := by
          rcases Bool.or_eq_true_iff.mp hline with h1 | h2
          · simpa using h1
          · exact absurd h2 hin
        rw [List.countP_cons_of_neg isFailedTestLine rest hnf] at hgt
        exact List.mem_cons_of_mem _ (ih _ fc hrest hle hgt)

/-- C5 (amended): when every FAILED test line lies inside a pytest section,
no line is both a FAILED test line and a summary line, and the shaped
result fits `max_chars` (so the final cap does not cut characters), the
shaper keeps every summary line, and whenever truncation occurs the
emitted notice carries `total - max_failures_shown`, which plus the number
of FAILED test lines kept equals the total counted in the unshaped
input. -/
theorem truncate_validation_shapes (output : String) (maxShown maxChars : Nat)
    (h0 : output ≠ "")
    (h1 : allFailedInPytest (splitNl output.toList) false = true)
    (h2 : ∀ l ∈ splitNl output.toList,
      ¬(isFailedTestLine l = true ∧ is_summary_line l = true))
    (h3 : (joinNl (truncate_validation_lines (splitNl output.toList) maxShown)).length
      ≤ maxChars) :
    truncate_validation_output output maxShown maxChars =
      String.mk (joinNl (truncate_validation_lines (splitNl output.toList) maxShown)) ∧
    (∀ l ∈ splitNl output.toList, is_summary_line l = true →
      l ∈ truncate_validation_lines (splitNl output.toList) maxShown) ∧
    (maxShown < countFailedLines (splitNl output.toList) →
      noticeLine ((countFailedLines (splitNl output.toList) : Int) - (maxShown : Int)) ∈
        truncate_validation_lines (splitNl output.toList) maxShown ∧
      ((countFailedLines (splitNl output.toList) : Int) - (maxShown : Int)) +
        (countFailedLines (truncate_validation_lines (splitNl output.toList) maxShown) : Int) =
        (countFailedLines (splitNl output.toList) : Int)) := by
  refine ⟨?_, ?_, ?_⟩
  · unfold truncate_validation_output
    rw [if_neg h0]
    rw [if_neg (by
      rw [not_lt]
      simpa using h3)]
  · intro l hmem hsum
    have hnf : isFailedTestLine l = false := by
      rw [Bool.eq_false_iff]
      intro hf
      exact h2 l hmem ⟨hf, hsum⟩
    exact go_keeps_summary maxShown (countFailedLines (splitNl output.toList))
      (splitNl output.toList) false 0 l hmem hsum hnf
  · intro hgt
    constructor
    · exact go_inserts_notice maxShown (countFailedLines (splitNl output.toList))
        (splitNl output.toList) false 0 h1 (Nat.zero_le _) (by simpa using hgt)
    · have hc2 : List.countP isFailedTestLine
          (truncateLinesGo maxShown (countFailedLines (splitNl output.toList))
            (splitNl output.toList) false 0) =
          min (maxShown - 0) (List.countP isFailedTestLine (splitNl output.toList)) :=
        go_countFailed maxShown (countFailedLines (splitNl output.toList))
          (splitNl output.toList) false 0 h1
      simp only [countFailedLines, truncate_validation_lines]
      simp only [countFailedLines] at hc2
      rw [hc2]
      simp only [countFailedLines] at hgt
      omega

/-- The property C5 claims of the shaping function, as stated: every summary
line of the raw output is kept in the shaped output, and whenever a
truncation notice with count `n` appears in the shaped output, `n` plus the
FAILED test lines kept equals the total FAILED test lines of the input. -/
def claimC5 (output : String) (maxShown maxChars : Nat) : Prop :=
  (∀ l ∈ splitNl output.toList, is_summary_line l = true →
    l ∈ splitNl (truncate_validation_output output maxShown maxChars).toList) ∧
  (∀ n : Int,
    noticeLine n ∈ splitNl (truncate_validation_output output maxShown maxChars).toList →
    n + (countFailedLines (splitNl (truncate_validation_output output maxShown maxChars).toList) : Int) =
      (countFailedLines (splitNl output.toList) : Int))

/-- A separator line of sixty `=`. -/
def c5Sep : String := String.mk (List.replicate 60 '=')

/-- Validation output with 21 FAILED test lines inside the pytest section
and one more in a later (non-pytest) section: the pre-count totals 22, the
notice reports 2 skipped, but 21 FAILED lines are kept. -/
def c5CexOutput : String :=
  String.intercalate "\n"
    ([c5Sep, "Running: Pytest"] ++ List.replicate 21 "FAILED tests/t.py::a" ++
      [c5Sep, "Running: Ruff", "FAILED tests/t.py::z"])

/-- C5 counterexample: with the source's default parameters the claim fails
on `c5CexOutput` — the notice says 2 more FAILED tests were hidden while 21
FAILED test lines remain visible, and 2 + 21 ≠ 22. -/
theorem truncate_claim_counterexample : ¬ claimC5 c5CexOutput 20 12000 := by
  intro h
  have := h.2 2 (by decide)
  revert this
  decide

/-- Validation output whose 4 FAILED test lines all sit in the pytest
section (witness data for C5, with `max_failures_shown = 2`). -/
def c5WitnessOutput : String :=
  String.intercalate "\n"
    ([c5Sep, "Running: Pytest"] ++ List.replicate 4 "FAILED tests/t.py::a" ++
      ["1 failed, 2 passed in 0.5s"])

/-- C5 witness: the amended theorem applied to `c5WitnessOutput` with
`max_failures_shown = 2`: the notice for 2 skipped failures is emitted and
the counts balance. -/
theorem truncate_validation_shapes_witness :
    noticeLine ((countFailedLines (splitNl c5WitnessOutput.toList) : Int) - (2 : Nat)) ∈
      truncate_validation_lines (splitNl c5WitnessOutput.toList) 2 ∧
    ((countFailedLines (splitNl c5WitnessOutput.toList) : Int) - (2 : Nat)) +
      (countFailedLines (truncate_validation_lines (splitNl c5WitnessOutput.toList) 2) : Int) =
      (countFailedLines (splitNl c5WitnessOutput.toList) : Int) :=
  (truncate_validation_shapes c5WitnessOutput 2 12000 (by decide) (by decide)
    (by decide) (by decide)).2.2 (by decide)

/-! ### `interactive_utils` feedback markers (C7, C8)

The four regular expressions of `parse_inline_feedback`,
`clean_feedback_markers` and `resolve_feedback_markers` are embedded by
bespoke matchers whose nested searches reproduce Python's backtracking
order exactly: a greedy `\s*` tries the longest whitespace run first, a
lazy `.+?` tries one character first, and alternatives are explored in
that order until the first success, which is what `re` returns. -/

/-- Python `str.strip()` (whitespace at both ends). -/
def pyStrip (s : List Char) : List Char :=
  ((s.dropWhile pyIsSpace).reverse.dropWhile pyIsSpace).reverse

/-- Length of the leading whitespace run. -/
def wsCount (s : List Char) : Nat :=
  (s.takeWhile pyIsSpace).length

/-- Matcher for `\[FEEDBACK:\s*{re.escape(o)}\s*\]` (IGNORECASE, DOTALL) at
the start of `s`, used with `count=1` by `resolve_feedback_markers`.
Returns the rest after the match. -/
def matchMarkerAt (o : List Char) (s : List Char) : Option (List Char) :=
  if isPrefixOfCI "[FEEDBACK:".toList s then
    let s1 := s.drop 10
    (List.range (wsCount s1 + 1)).reverse.findSome? fun i =>
      let s2 := s1.drop i
      if isPrefixOfCI o s2 then
        let s3 := s2.drop o.length
        (List.range (wsCount s3 + 1)).reverse.findSome? fun j =>
          match s3.drop j with
          | ']' :: rest => some rest
          | _ => none
      else none
  else none

/-- Matcher for `\[FEEDBACK:\s*.+?\]` (IGNORECASE, DOTALL) at the start of
`s` — the unresolved-marker pattern of `clean_feedback_markers`. -/
def matchFeedbackAt (s : List Char) : Option (List Char) :=
  if isPrefixOfCI "[FEEDBACK:".toList s then
    let s1 := s.drop 10
    (List.range (wsCount s1 + 1)).reverse.findSome? fun i =>
      let s2 := s1.drop i
      (List.range' 1 s2.length).findSome? fun j =>
        match s2.drop j with
        | ']' :: rest => some rest
        | _ => none
  else none

/-- Matcher for `\[FEEDBACK:(?!-RESOLVED)\s*(.+?)\]` (IGNORECASE, DOTALL)
at the start of `s` — the pattern of `parse_inline_feedback`; returns the
capture and the rest. -/
def matchParseAt (s : List Char) : Option (List Char × List Char) :=
  if isPrefixOfCI "[FEEDBACK:".toList s then
    let s1 := s.drop 10
    if isPrefixOfCI "-RESOLVED".toList s1 then none
    else
      (List.range (wsCount s1 + 1)).reverse.findSome? fun i =>
        let s2 := s1.drop i
        (List.range' 1 s2.length).findSome? fun j =>
          match s2.drop j with
          | ']' :: rest => some (s2.take j, rest)
          | _ => none
  else none

/-- Matcher for
`\[FEEDBACK-RESOLVED:\s*.+?\s*\|\s*FEEDBACK:\s*.+?\]` (IGNORECASE, DOTALL)
at the start of `s` — the resolved-marker pattern of
`clean_feedback_markers`. -/
def matchResolvedAt (s : List Char) : Option (List Char) :=
  if isPrefixOfCI "[FEEDBACK-RESOLVED:".toList s then
    let s1 := s.drop 19
    (List.range (wsCount s1 + 1)).reverse.findSome? fun i1 =>
      let s2 := s1.drop i1
      (List.range' 1 s2.length).findSome? fun j1 =>
        let s3 := s2.drop j1
        (List.range (wsCount s3 + 1)).reverse.findSome? fun i2 =>
          match s3.drop i2 with
          | '|' :: s4 =>
            (List.range (wsCount s4 + 1)).reverse.findSome? fun i3 =>
              let s5 := s4.drop i3
              if isPrefixOfCI "FEEDBACK:".toList s5 then
                let s6 := s5.drop 9
                (List.range (wsCount s6 + 1)).reverse.findSome? fun i4 =>
                  let s7 := s6.drop i4
                  (List.range' 1 s7.length).findSome? fun j2 =>
                    match s7.drop j2 with
                    | ']' :: rest => some rest
                    | _ => none
              else none
          | _ => none
  else none

/-- Matcher for `\n{3,}` at the start of `s` (the blank-line collapse of
`clean_feedback_markers`). -/
def matchNl3At (s : List Char) : Option (List Char) :=
  let m := (s.takeWhile (· = '\n')).length
  if m ≥ 3 then some (s.drop m) else none

/-- Python `pattern.sub(repl, s)` (all occurrences): scan left to right,
splice `repl` over each match and continue after it; a zero-width match
additionally copies one character, as `re.sub` does. -/
def subAllGo (matchAt : List Char → Option (List Char)) (repl : List Char) :
    Nat → List Char → List Char
  | 0, s => s
  | fuel + 1, s =>
    match matchAt s with
    | some rest =>
      match s with
      | [] => repl
      | c :: tail =>
        if rest.length < tail.length + 1 then
          repl ++ subAllGo matchAt repl fuel rest
        else
          repl ++ c :: subAllGo matchAt repl fuel tail
    | none =>
      match s with
      | [] => []
      | c :: tail => c :: subAllGo matchAt repl fuel tail

def subAllWith (matchAt : List Char → Option (List Char)) (repl : List Char)
    (s : List Char) : List Char :=
  subAllGo matchAt repl (s.length + 1) s

/-- Python `pattern.sub(repl, s, count=1)` for a replacement string free of
template escapes: splice `repl` over the first match only.  The general
form, which processes `re` replacement templates, is `subFirstWithT`
below. -/
def subFirstWith (matchAt : List Char → Option (List Char)) (repl : List Char) :
    List Char → List Char
  | [] =>
    match matchAt [] with
    | some rest => repl ++ rest
    | none => []
  | c :: tail =>
    match matchAt (c :: tail) with
    | some rest => repl ++ rest
    | none => c :: subFirstWith matchAt repl tail

/-- A token of a parsed `re` replacement template: a literal character or a
reference to group 0 (the whole match; the marker pattern has no capture
groups, so 0 is the only valid group index). -/
inductive TmplTok
  | lit (ch : Char)
  | group0
deriving DecidableEq

/-- `'0'`–`'7'`. -/
def isOctDigitC (ch : Char) : Bool :=
  '0' ≤ ch && ch ≤ '7'

/-- ASCII letter. -/
def isAsciiLetterC (ch : Char) : Bool :=
  ('a' ≤ ch && ch ≤ 'z') || ('A' ≤ ch && ch ≤ 'Z')

/-- Value of a decimal digit string. -/
def digitsVal (l : List Char) : Nat :=
  l.foldl (fun a ch => a * 10 + (ch.toNat - 48)) 0

/-- Value of an octal digit string. -/
def octVal (l : List Char) : Nat :=
  l.foldl (fun a ch => a * 8 + (ch.toNat - 48)) 0

/-- The `ESCAPES` table of `re._parser` restricted to its letter entries:
`\a \b \f \n \r \t \v`. -/
def escChar? (ch : Char) : Option Char :=
  if ch = 'a' then some (Char.ofNat 7)
  else if ch = 'b' then some (Char.ofNat 8)
  else if ch = 'f' then some (Char.ofNat 12)
  else if ch = 'n' then some (Char.ofNat 10)
  else if ch = 'r' then some (Char.ofNat 13)
  else if ch = 't' then some (Char.ofNat 9)
  else if ch = 'v' then some (Char.ofNat 11)
  else none

/-- `re._parser.parse_template` for a pattern with no capture groups and no
named groups (the marker pattern of `resolve_feedback_markers`): literal
characters pass through; `\g<…>` with numeric value 0 references the whole
match and any other group reference is an error; `\0` with up to two more
octal digits and three-digit octal escapes give characters; `\1`–`\99`
group references are errors (no groups exist); `\a \b \f \n \r \t \v \\`
are the escape table; other letter escapes are errors; a backslash before
any other character stays literal; a trailing backslash is an error.  Error
messages are abridged — only that an exception is raised is modelled.
Fuel-based so that the kernel can evaluate it; `parseTemplate` supplies
sufficient fuel. -/
def parseTemplateGo : Nat → List Char → Except String (List TmplTok)
  | 0, _ => .error "out of fuel"
  | _ + 1, [] => .ok []
  | fuel + 1, ch0 :: rest0 =>
    if ch0 = '\\' then
    match rest0 with
    | [] => .error "bad escape (end of pattern)"
    | ch :: rest2 =>
      if ch = 'g' then
        match rest2 with
        | '<' :: rest3 =>
          let name := rest3.takeWhile (fun x => x ≠ '>')
          match rest3.drop name.length with
          | '>' :: rest4 =>
            if name.isEmpty then .error "missing group name"
            else
              let name2 := if name.head? = some '+' then name.drop 1 else name
              if !name2.isEmpty && name2.all pyIsDigit then
                if digitsVal name2 = 0 then
                  match parseTemplateGo fuel rest4 with
                  | .ok ts => .ok (.group0 :: ts)
                  | .error e => .error e
                else .error "invalid group reference"
              else .error "bad character in group name"
          | _ => .error "missing >, unterminated name"
        | _ => .error "missing <"
      else if ch = '0' then
        let ods := (rest2.takeWhile isOctDigitC).take 2
        match parseTemplateGo fuel (rest2.drop ods.length) with
        | .ok ts => .ok (.lit (Char.ofNat (octVal ('0' :: ods))) :: ts)
        | .error e => .error e
      else if pyIsDigit ch then
        match rest2 with
        | d2 :: rest3 =>
          if pyIsDigit d2 then
            match rest3 with
            | d3 :: rest4 =>
              if isOctDigitC ch && isOctDigitC d2 && isOctDigitC d3 then
                if octVal [ch, d2, d3] > 255 then
                  .error "octal escape value outside of range 0-0o377"
                else
                  match parseTemplateGo fuel rest4 with
                  | .ok ts => .ok (.lit (Char.ofNat (octVal [ch, d2, d3])) :: ts)
                  | .error e => .error e
              else .error "invalid group reference"
            | [] => .error "invalid group reference"
          else .error "invalid group reference"
        | [] => .error "invalid group reference"
      else
        match escChar? ch with
        | some e =>
          match parseTemplateGo fuel rest2 with
          | .ok ts => .ok (.lit e :: ts)
          | .error er => .error er
        | none =>
          if ch = '\\' then
            match parseTemplateGo fuel rest2 with
            | .ok ts => .ok (.lit '\\' :: ts)
            | .error er => .error er
          else if isAsciiLetterC ch then .error "bad escape"
          else
            match parseTemplateGo fuel rest2 with
            | .ok ts => .ok (.lit '\\' :: .lit ch :: ts)
            | .error er => .error er
    else
      match parseTemplateGo fuel rest0 with
      | .ok ts => .ok (.lit ch0 :: ts)
      | .error e => .error e

/-- Parse a replacement template (ample fuel). -/
def parseTemplate (tmpl : List Char) : Except String (List TmplTok) :=
  parseTemplateGo (tmpl.length + 1) tmpl

/-- Expand a parsed template against the matched text (group 0). -/
def expandTemplate (toks : List TmplTok) (matched : List Char) : List Char :=
  match toks with
  | [] => []
  | .lit ch :: ts => ch :: expandTemplate ts matched
  | .group0 :: ts => matched ++ expandTemplate ts matched

/-- Python `pattern.sub(repl, s, count=1)` with template processing: splice
the template expanded against the matched span over the first match
only. -/
def subFirstWithT (matchAt : List Char → Option (List Char)) (toks : List TmplTok) :
    List Char → List Char
  | [] =>
    match matchAt [] with
    | some rest => expandTemplate toks [] ++ rest
    | none => []
  | c :: tail =>
    match matchAt (c :: tail) with
    | some rest =>
      expandTemplate toks ((c :: tail).take ((c :: tail).length - rest.length)) ++ rest
    | none => c :: subFirstWithT matchAt toks tail

/-- Embedding of `interactive_utils.clean_feedback_markers`: remove
resolved markers, then unresolved markers, then collapse runs of three or
more newlines to two. -/
def clean_feedback_markers (content : String) : String :=
  let c1 := subAllWith matchResolvedAt [] content.toList
  let c2 := subAllWith matchFeedbackAt [] c1
  let c3 := subAllWith matchNl3At "\n\n".toList c2
  String.mk c3

/-- `re.match(r"^(#+\s*.+)$", line)` (per line, MULTILINE): with `#+`
greedy but backtrackable before `\s*.+`, a line matches exactly when it
starts with `#` and has at least one further character; the captured group
is then the whole line. -/
def headerLineMatch (line : List Char) : Bool :=
  match line with
  | '#' :: _ :: _ => true
  | _ => false

/-- The lines of `content` with the position of each line start. -/
def lineStartsGo : Nat → List Char → Nat → List (Nat × List Char)
  | 0, _, _ => []
  | fuel + 1, s, pos =>
    let line := s.takeWhile (· ≠ '\n')
    (pos, line) ::
      (match s.drop line.length with
       | [] => []
       | _ :: rest2 => lineStartsGo fuel rest2 (pos + line.length + 1))

def lineStartsAux (s : List Char) (pos : Nat) : List (Nat × List Char) :=
  lineStartsGo (s.length + 1) s pos

/-- The header matches of `parse_inline_feedback`: `(position, stripped
header text)` for every line matching the header pattern. -/
def headersOf (content : List Char) : List (Nat × List Char) :=
  (lineStartsAux content 0).filterMap fun p =>
    if headerLineMatch p.2 then some (p.1, pyStrip p.2) else none

/-- `finditer` of the inline-feedback pattern: `(position, stripped
capture)` for every match, scanning forward and resuming after each
match. -/
def findMarkersGo : Nat → List Char → Nat → List (Nat × List Char)
  | 0, _, _ => []
  | fuel + 1, s, pos =>
    match matchParseAt s with
    | some pr =>
      (pos, pyStrip pr.1) ::
        (if pr.2.length < s.length then
          findMarkersGo fuel pr.2 (pos + (s.length - pr.2.length))
        else [])
    | none =>
      match s with
      | [] => []
      | _ :: tail => findMarkersGo fuel tail (pos + 1)

def findMarkersAux (s : List Char) (pos : Nat) : List (Nat × List Char) :=
  findMarkersGo (s.length + 1) s pos

/-- The `for header_pos, header_text in headers` scan of
`parse_inline_feedback`: the last header strictly before position `p`
(headers are in document order), else the accumulator. -/
def contextForAux (p : Nat) : List (Nat × List Char) → List Char → List Char
  | [], acc => acc
  | h :: rest, acc => if h.1 < p then contextForAux p rest h.2 else acc

/-- Embedding of `interactive_utils.parse_inline_feedback`: every
unresolved `[FEEDBACK: ...]` marker with the nearest preceding markdown
header as context (`"Document start"` when none). -/
def parse_inline_feedback (content : String) : List (String × String) :=
  let headers := headersOf content.toList
  let markers := findMarkersAux content.toList 0
  markers.map fun m =>
    (String.mk (contextForAux m.1 headers "Document start".toList), String.mk m.2)

/-- The resolved marker text
`[FEEDBACK-RESOLVED: {agent_comment} | FEEDBACK: {original_feedback}]`. -/
def mkResolvedMarker (agent_comment original_feedback : String) : String :=
  "[FEEDBACK-RESOLVED: " ++ agent_comment ++ " | FEEDBACK: " ++ original_feedback ++ "]"

deriving instance DecidableEq for Except

/-- Embedding of `interactive_utils.resolve_feedback_markers` on the draft
text (the source reads the draft file, transforms the text as below and
writes it back): for each `(original, comment)` pair in order, replace the
first match of the marker pattern for `original` with the resolved marker,
processed by `pattern.sub` as a replacement template (backslash escapes in
`comment`/`original` are expanded, `\g<0>` references the matched text,
and bad escapes raise — modelled by `Except.error`). -/
def resolveOnePair (p : String × String) (content : String) : Except String String :=
  match parseTemplate ((mkResolvedMarker p.2 p.1).toList) with
  | .ok toks =>
    .ok (String.mk (subFirstWithT (matchMarkerAt p.1.toList) toks content.toList))
  | .error e => .error e

def resolve_feedback_markers : List (String × String) → String → Except String String
  | [], content => .ok content
  | p :: rest, content =>
    match resolveOnePair p content with
    | .ok c2 => resolve_feedback_markers rest c2
    | .error e => .error e

theorem isPrefixOfCI_length {lit s : List Char} (h : isPrefixOfCI lit s = true) :
    lit.length ≤ s.length := by
  unfold isPrefixOfCI at h
  have hlen := (List.isPrefixOf_iff_prefix.mp h).length_le
  simpa using hlen

theorem matchFeedbackAt_consumes {s rest : List Char}
    (h : matchFeedbackAt s = some rest) : rest.length + 12 ≤ s.length := by
  unfold matchFeedbackAt at h
  split at h
  · rename_i hpre
    have h10 : 10 ≤ s.length := by simpa using isPrefixOfCI_length hpre
    obtain ⟨i, hi, h2⟩ := List.exists_of_findSome?_eq_some h
    rw [List.mem_reverse, List.mem_range] at hi
    obtain ⟨j, hj, h3⟩ := List.exists_of_findSome?_eq_some h2
    rw [List.mem_range'_1] at hj
    split at h3
    · rename_i tl hdrop
      injection h3 with h3
      subst h3
      have hlen := congrArg List.length hdrop
      simp only [List.length_drop, List.length_cons] at hlen hj ⊢
      omega
    · exact absurd h3 (by simp)
  · exact absurd h (by simp)

theorem matchResolvedAt_consumes {s rest : List Char}
    (h : matchResolvedAt s = some rest) : rest.length + 1 ≤ s.length := by
  unfold matchResolvedAt at h
  split at h
  · rename_i hpre
    have h19 : 19 ≤ s.length := by simpa using isPrefixOfCI_length hpre
    obtain ⟨i1, hi1, h2⟩ := List.exists_of_findSome?_eq_some h
    rw [List.mem_reverse, List.mem_range] at hi1
    obtain ⟨j1, hj1, h3⟩ := List.exists_of_findSome?_eq_some h2
    rw [List.mem_range'_1] at hj1
    obtain ⟨i2, hi2, h4⟩ := List.exists_of_findSome?_eq_some h3
    rw [List.mem_reverse, List.mem_range] at hi2
    split at h4
    · rename_i s4 hdrop4
      obtain ⟨i3, hi3, h5⟩ := List.exists_of_findSome?_eq_some h4
      rw [List.mem_reverse, List.mem_range] at hi3
      dsimp only [] at h5
      split at h5
      · rename_i hpre5
        obtain ⟨i4, hi4, h6⟩ := List.exists_of_findSome?_eq_some h5
        rw [List.mem_reverse, List.mem_range] at hi4
        obtain ⟨j2, hj2, h7⟩ := List.exists_of_findSome?_eq_some h6
        rw [List.mem_range'_1] at hj2
        split at h7
        · rename_i tl hdrop7
          injection h7 with h7
          subst h7
          have hlen7 := congrArg List.length hdrop7
          have hlen4 := congrArg List.length hdrop4
          simp only [List.length_drop, List.length_cons] at hlen7 hlen4
          omega
        · exact absurd h7 (by simp)
      · exact absurd h5 (by simp)
    · exact absurd h4 (by simp)
  · exact absurd h (by simp)

theorem matchNl3At_consumes {s rest : List Char}
    (h : matchNl3At s = some rest) : rest.length + 3 ≤ s.length := by
  unfold matchNl3At at h
  dsimp only [] at h
  split at h
  · rename_i hm
    injection h with h
    subst h
    have hle : (List.takeWhile (fun x => decide (x = '\n')) s).length ≤ s.length :=
      (List.takeWhile_prefix _).length_le
    simp only [List.length_drop]
    omega
  · exact absurd h (by simp)

theorem subAll_matchAt_nil_none {matchAt : List Char → Option (List Char)}
    {repl : List Char} {k : Nat}
    (Hc : ∀ s rest, matchAt s = some rest → rest.length + k ≤ s.length)
    (hk : repl.length < k) : matchAt [] = none := by
  cases hm : matchAt [] with
  | none => rfl
  | some r =>
    have := Hc [] r hm
    simp only [List.length_nil] at this
    omega

theorem subAllGo_fuel_eq (matchAt : List Char → Option (List Char)) (repl : List Char) :
    ∀ f1 f2 s, s.length < f1 → s.length < f2 →
      subAllGo matchAt repl f1 s = subAllGo matchAt repl f2 s := by
  intro f1
  induction f1 with
  | zero =>
    intro f2 s h1 _
    exact absurd h1 (Nat.not_lt_zero _)
  | succ f1 ih =>
    intro f2 s h1 h2
    cases f2 with
    | zero => exact absurd h2 (Nat.not_lt_zero _)
    | succ f2 =>
      cases s with
      | nil => rfl
      | cons c tail =>
        simp only [List.length_cons] at h1 h2
        simp only [subAllGo]
        cases hm : matchAt (c :: tail) with
        | some rest =>
          dsimp only []
          split
          · rename_i hlt
            rw [ih f2 rest (by omega) (by omega)]
          · rw [ih f2 tail (by omega) (by omega)]
        | none =>
          dsimp only []
          rw [ih f2 tail (by omega) (by omega)]

theorem subAllGo_eq_subAllWith (matchAt : List Char → Option (List Char))
    (repl : List Char) (f : Nat) (s : List Char) (h : s.length < f) :
    subAllGo matchAt repl f s = subAllWith matchAt repl s :=
  subAllGo_fuel_eq matchAt repl f (s.length + 1) s h (Nat.lt_succ_self _)

theorem subAllWith_nil_eq (matchAt : List Char → Option (List Char)) (repl : List Char) :
    subAllWith matchAt repl [] =
      match matchAt [] with
      | some _ => repl
      | none => [] := by
  show subAllGo matchAt repl (0 + 1) [] = _
  rw [subAllGo]

theorem subAllWith_cons_eq (matchAt : List Char → Option (List Char)) (repl : List Char)
    (c : Char) (tail : List Char) :
    subAllWith matchAt repl (c :: tail) =
      match matchAt (c :: tail) with
      | some rest =>
        if rest.length < tail.length + 1 then repl ++ subAllWith matchAt repl rest
        else repl ++ c :: subAllWith matchAt repl tail
      | none => c :: subAllWith matchAt repl tail := by
  show subAllGo matchAt repl (List.length (c :: tail) + 1) (c :: tail) = _
  rw [subAllGo]
  cases hm : matchAt (c :: tail) with
  | some rest =>
    dsimp only []
    split
    · rename_i hlt
      rw [subAllGo_eq_subAllWith matchAt repl (List.length (c :: tail)) rest
        (by simp only [List.length_cons]; omega)]
    · rw [subAllGo_eq_subAllWith matchAt repl (List.length (c :: tail)) tail
        (by simp only [List.length_cons]; omega)]
  | none =>
    dsimp only []
    rw [subAllGo_eq_subAllWith matchAt repl (List.length (c :: tail)) tail
      (by simp only [List.length_cons]; omega)]

theorem subAll_len {matchAt : List Char → Option (List Char)}
    {repl : List Char} {k : Nat}
    (Hc : ∀ s rest, matchAt s = some rest → rest.length + k ≤ s.length)
    (hk : repl.length < k) :
    ∀ n s, s.length ≤ n → (subAllWith matchAt repl s).length ≤ s.length := by
  intro n
  induction n with
  | zero =>
    intro s hn
    have hs : s = [] := List.eq_nil_of_length_eq_zero (Nat.le_zero.mp hn)
    subst hs
    rw [subAllWith_nil_eq, subAll_matchAt_nil_none Hc hk]
  | succ n ih =>
    intro s hn
    match s with
    | [] => rw [subAllWith_nil_eq, subAll_matchAt_nil_none Hc hk]
    | c :: tail =>
      rw [subAllWith_cons_eq]
      cases hm : matchAt (c :: tail) with
      | some rest =>
        dsimp only []
        have hcons := Hc _ _ hm
        simp only [List.length_cons] at hcons hn
        have hlt : rest.length < tail.length + 1 := by omega
        rw [if_pos hlt]
        have h1 := ih rest (by omega)
        simp only [List.length_append, List.length_cons]
        omega
      | none =>
        dsimp only []
        simp only [List.length_cons] at hn
        have h1 := ih tail (by omega)
        simp only [List.length_cons]
        omega

theorem subAll_eq_self_of_length {matchAt : List Char → Option (List Char)}
    {repl : List Char} {k : Nat}
    (Hc : ∀ s rest, matchAt s = some rest → rest.length + k ≤ s.length)
    (hk : repl.length < k) :
    ∀ n s, s.length ≤ n → (subAllWith matchAt repl s).length = s.length →
      subAllWith matchAt repl s = s := by
  intro n
  induction n with
  | zero =>
    intro s hn _
    have hs : s = [] := List.eq_nil_of_length_eq_zero (Nat.le_zero.mp hn)
    subst hs
    rw [subAllWith_nil_eq, subAll_matchAt_nil_none Hc hk]
  | succ n ih =>
    intro s hn hl
    match s with
    | [] => rw [subAllWith_nil_eq, subAll_matchAt_nil_none Hc hk]
    | c :: tail =>
      rw [subAllWith_cons_eq] at hl ⊢
      cases hm : matchAt (c :: tail) with
      | some rest =>
        rw [hm] at hl
        dsimp only [] at hl
        have hcons := Hc _ _ hm
        simp only [List.length_cons] at hcons hn hl
        have hlt : rest.length < tail.length + 1 := by omega
        rw [if_pos hlt] at hl
        have hsub := subAll_len Hc hk n rest (by omega)
        simp only [List.length_append] at hl
        exfalso
        omega
      | none =>
        rw [hm] at hl
        dsimp only [] at hl ⊢
        simp only [List.length_cons] at hl hn
        have := ih tail (by omega) (by omega)
        rw [this]

theorem subAll_fix {matchAt : List Char → Option (List Char)}
    {repl : List Char} {k : Nat}
    (Hc : ∀ s rest, matchAt s = some rest → rest.length + k ≤ s.length)
    (hk : repl.length < k) :
    ∀ n s, s.length ≤ n → subAllWith matchAt repl s = s →
      ∀ i, matchAt (List.drop i s) = none := by
  intro n
  induction n with
  | zero =>
    intro s hn _ i
    have hs : s = [] := List.eq_nil_of_length_eq_zero (Nat.le_zero.mp hn)
    subst hs
    rw [List.drop_nil]
    exact subAll_matchAt_nil_none Hc hk
  | succ n ih =>
    intro s hn hfix i
    match s with
    | [] =>
      rw [List.drop_nil]
      exact subAll_matchAt_nil_none Hc hk
    | c :: tail =>
      rw [subAllWith_cons_eq] at hfix
      cases hm : matchAt (c :: tail) with
      | some rest =>
        rw [hm] at hfix
        dsimp only [] at hfix
        have hcons := Hc _ _ hm
        simp only [List.length_cons] at hcons hn
        have hlt : rest.length < tail.length + 1 := by omega
        rw [if_pos hlt] at hfix
        have hlen := congrArg List.length hfix
        have hsub := subAll_len Hc hk n rest (by omega)
        simp only [List.length_append, List.length_cons] at hlen
        exfalso
        omega
      | none =>
        rw [hm] at hfix
        dsimp only [] at hfix
        have htail : subAllWith matchAt repl tail = tail := by
          injection hfix
        cases i with
        | zero =>
          rw [List.drop_zero]
          exact hm
        | succ i =>
          rw [List.drop_succ_cons]
          exact ih tail (by simp only [List.length_cons] at hn; omega) htail i

theorem matchParseAt_eq_none_of_feedback {s : List Char}
    (h : matchFeedbackAt s = none) : matchParseAt s = none := by
  cases hp : matchParseAt s with
  | none => rfl
  | some pr =>
    exfalso
    unfold matchParseAt at hp
    split at hp
    · rename_i hpre
      dsimp only [] at hp
      split at hp
      · exact absurd hp (by simp)
      · rename_i hres
        unfold matchFeedbackAt at h
        rw [if_pos hpre] at h
        simp only [List.findSome?_eq_none_iff] at h
        obtain ⟨i, hi, h2⟩ := List.exists_of_findSome?_eq_some hp
        obtain ⟨j, hj, h3⟩ := List.exists_of_findSome?_eq_some h2
        split at h3
        · rename_i tl hdrop
          have hnone := h i hi j hj
          rw [hdrop] at hnone
          simp at hnone
        · exact absurd h3 (by simp)
    · exact absurd hp (by simp)

theorem findMarkersGo_fuel_eq :
    ∀ f1 f2 (s : List Char) (pos : Nat), s.length < f1 → s.length < f2 →
      findMarkersGo f1 s pos = findMarkersGo f2 s pos := by
  intro f1
  induction f1 with
  | zero =>
    intro f2 s pos h1 _
    exact absurd h1 (Nat.not_lt_zero _)
  | succ f1 ih =>
    intro f2 s pos h1 h2
    cases f2 with
    | zero => exact absurd h2 (Nat.not_lt_zero _)
    | succ f2 =>
      simp only [findMarkersGo]
      cases hp : matchParseAt s with
      | some pr =>
        dsimp only []
        split
        · rename_i hlt
          rw [ih f2 pr.2 (pos + (s.length - pr.2.length)) (by omega) (by omega)]
        · rfl
      | none =>
        cases s with
        | nil => rfl
        | cons c tail =>
          dsimp only []
          simp only [List.length_cons] at h1 h2
          rw [ih f2 tail (pos + 1) (by omega) (by omega)]

theorem findMarkersAux_eq (s : List Char) (pos : Nat) :
    findMarkersAux s pos =
      match matchParseAt s with
      | some pr =>
        (pos, pyStrip pr.1) ::
          (if pr.2.length < s.length then
            findMarkersAux pr.2 (pos + (s.length - pr.2.length))
          else [])
      | none =>
        match s with
        | [] => []
        | _ :: tail => findMarkersAux tail (pos + 1) := by
  show findMarkersGo (s.length + 1) s pos = _
  simp only [findMarkersGo]
  cases hp : matchParseAt s with
  | some pr =>
    dsimp only []
    split
    · rename_i hlt
      rw [findMarkersGo_fuel_eq s.length (pr.2.length + 1) pr.2
        (pos + (s.length - pr.2.length)) (by omega) (Nat.lt_succ_self _)]
      rfl
    · rfl
  | none =>
    cases s with
    | nil => rfl
    | cons c tail => rfl

theorem findMarkersAux_eq_nil :
    ∀ n (s : List Char), s.length ≤ n →
      (∀ i, matchFeedbackAt (List.drop i s) = none) →
      ∀ pos, findMarkersAux s pos = [] := by
  intro n
  induction n with
  | zero =>
    intro s hn hno pos
    have hs : s = [] := List.eq_nil_of_length_eq_zero (Nat.le_zero.mp hn)
    subst hs
    have h0 := hno 0
    rw [List.drop_zero] at h0
    rw [findMarkersAux_eq]
    split
    · rename_i pr hp
      rw [matchParseAt_eq_none_of_feedback h0] at hp
      exact absurd hp (by simp)
    · rfl
  | succ n ih =>
    intro s hn hno pos
    have h0 := hno 0
    rw [List.drop_zero] at h0
    rw [findMarkersAux_eq]
    split
    · rename_i pr hp
      rw [matchParseAt_eq_none_of_feedback h0] at hp
      exact absurd hp (by simp)
    · rename_i hp
      cases s with
      | nil => rfl
      | cons c tail =>
        show findMarkersAux tail (pos + 1) = []
        refine ih tail ?_ ?_ (pos + 1)
        · simp only [List.length_cons] at hn
          omega
        · intro i
          have := hno (i + 1)
          rwa [List.drop_succ_cons] at this

theorem clean_stable_no_feedback (E : String)
    (h : clean_feedback_markers E = E) :
    ∀ i, matchFeedbackAt (List.drop i E.toList) = none := by
  have HcR : ∀ s rest, matchResolvedAt s = some rest → rest.length + 1 ≤ s.length :=
    fun _ _ hm => matchResolvedAt_consumes hm
  have HcF : ∀ s rest, matchFeedbackAt s = some rest → rest.length + 1 ≤ s.length :=
    fun _ _ hm => by have := matchFeedbackAt_consumes hm; omega
  have HcN : ∀ s rest, matchNl3At s = some rest → rest.length + 3 ≤ s.length :=
    fun _ _ hm => matchNl3At_consumes hm
  have hk1 : ([] : List Char).length < 1 := by decide
  have hkN : ("\n\n".toList : List Char).length < 3 := by decide
  have hc3 : subAllWith matchNl3At "\n\n".toList
      (subAllWith matchFeedbackAt []
        (subAllWith matchResolvedAt [] E.toList)) = E.toList :=
    congrArg String.toList h
  have l1 := subAll_len HcR hk1 E.toList.length E.toList le_rfl
  have l2 := subAll_len HcF hk1 (subAllWith matchResolvedAt [] E.toList).length
    (subAllWith matchResolvedAt [] E.toList) le_rfl
  have l3 := subAll_len HcN hkN
    (subAllWith matchFeedbackAt [] (subAllWith matchResolvedAt [] E.toList)).length
    (subAllWith matchFeedbackAt [] (subAllWith matchResolvedAt [] E.toList)) le_rfl
  have hlen := congrArg List.length hc3
  have e1 : subAllWith matchResolvedAt [] E.toList = E.toList :=
    subAll_eq_self_of_length HcR hk1 E.toList.length E.toList le_rfl (by omega)
  rw [e1] at l2 l3 hlen
  have e2 : subAllWith matchFeedbackAt [] E.toList = E.toList :=
    subAll_eq_self_of_length HcF hk1 E.toList.length E.toList le_rfl (by omega)
  exact subAll_fix HcF hk1 E.toList.length E.toList le_rfl e2

/-- **C8** (amended): parsing inline feedback after cleaning yields the
empty list for every document whose cleaned form is itself stable under
cleaning (`clean_feedback_markers (clean_feedback_markers D) =
clean_feedback_markers D`); removing a marker can re-form a new marker by
juxtaposition, so a single cleaning pass is not always enough (see the
counterexample). -/
theorem parse_after_clean_empty (D : String)
    (h : clean_feedback_markers (clean_feedback_markers D) = clean_feedback_markers D) :
    parse_inline_feedback (clean_feedback_markers D) = [] := by
  have hno := clean_stable_no_feedback (clean_feedback_markers D) h
  unfold parse_inline_feedback
  dsimp only []
  rw [findMarkersAux_eq_nil (clean_feedback_markers D).toList.length
    (clean_feedback_markers D).toList le_rfl hno 0]
  rfl

/-- The original C8 claim fails: removing the inner `[FEEDBACK: x]` marker
from `[FEED[FEEDBACK: x]BACK: y]` glues `[FEED` and `BACK: y]` into a new
marker `[FEEDBACK: y]`, which the parse step then reports. -/
theorem parse_after_clean_counterexample :
    parse_inline_feedback (clean_feedback_markers "[FEED[FEEDBACK: x]BACK: y]") =
      [("Document start", "y")] ∧
    ¬ (∀ D : String, parse_inline_feedback (clean_feedback_markers D) = []) := by
  have h1 : parse_inline_feedback (clean_feedback_markers "[FEED[FEEDBACK: x]BACK: y]") =
      [("Document start", "y")] := by decide
  refine ⟨h1, fun hall => ?_⟩
  have h2 := hall "[FEED[FEEDBACK: x]BACK: y]"
  rw [h1] at h2
  exact absurd h2 (by decide)

theorem parse_after_clean_empty_witness :
    clean_feedback_markers (clean_feedback_markers "## A\n[FEEDBACK: fix this]\nBody text") =
      clean_feedback_markers "## A\n[FEEDBACK: fix this]\nBody text" ∧
    parse_inline_feedback (clean_feedback_markers "## A\n[FEEDBACK: fix this]\nBody text") = [] :=
  ⟨by decide,
    parse_after_clean_empty "## A\n[FEEDBACK: fix this]\nBody text" (by decide)⟩

theorem char_toNat_ofNat_valid {n : Nat} (h : n.isValidChar) :
    (Char.ofNat n).toNat = n := by
  unfold Char.ofNat
  rw [dif_pos h]
  unfold Char.ofNatAux Char.toNat
  simp [UInt32.toNat]

theorem pyLower_eq_lbracket {x : Char} (h : pyLower x = '[') : x = '[' := by
  unfold pyLower at h
  split at h
  · rename_i hc
    exfalso
    simp only [Bool.and_eq_true, decide_eq_true_eq] at hc
    obtain ⟨h1, h2⟩ := hc
    have hv1 : 65 ≤ x.toNat := h1
    have hv2 : x.toNat ≤ 90 := h2
    have hvalid : (x.toNat + 32).isValidChar := by
      unfold Nat.isValidChar
      left
      omega
    have := congrArg Char.toNat h
    rw [char_toNat_ofNat_valid hvalid] at this
    have h91 : ('[').toNat = 91 := by decide
    omega
  · exact h

/-- Case-insensitive equality of character lists, as used by
`isPrefixOfCI`. -/
def ciEqL (l1 l2 : List Char) : Prop := l1.map pyLower = l2.map pyLower

/-- Every character is Python whitespace. -/
def allWsL (l : List Char) : Prop := ∀ x ∈ l, pyIsSpace x = true

/-- The decomposition a successful `matchMarkerAt o` imposes on its
input: a case variant of `[FEEDBACK:`, whitespace, a case variant of `o`,
whitespace, and the closing bracket, followed by the returned rest. -/
def MarkerShape (o s rest : List Char) : Prop :=
  ∃ hh w1 o2 w2, s = hh ++ (w1 ++ (o2 ++ (w2 ++ ']' :: rest))) ∧
    ciEqL hh ("[FEEDBACK:".toList) ∧ allWsL w1 ∧ ciEqL o2 o ∧ allWsL w2

theorem ciEqL_length {a b : List Char} (h : ciEqL a b) : a.length = b.length := by
  have := congrArg List.length h
  simpa using this

theorem isPrefixOfCI_take {lit s : List Char} (h : isPrefixOfCI lit s = true) :
    ciEqL (s.take lit.length) lit := by
  unfold isPrefixOfCI at h
  have hpre := List.isPrefixOf_iff_prefix.mp h
  have heq := List.prefix_iff_eq_take.mp hpre
  unfold ciEqL
  rw [List.map_take]
  rw [List.length_map] at heq
  exact heq.symm

theorem isPrefixOfCI_of_take {lit s : List Char} (h : ciEqL (s.take lit.length) lit) :
    isPrefixOfCI lit s = true := by
  unfold isPrefixOfCI
  rw [List.isPrefixOf_iff_prefix, List.prefix_iff_eq_take]
  unfold ciEqL at h
  rw [List.length_map, ← List.map_take, h]

theorem wsCount_ge_of_allWs : ∀ (w : List Char), allWsL w →
    ∀ z, w.length ≤ wsCount (w ++ z) := by
  intro w
  induction w with
  | nil =>
    intro _ z
    simp
  | cons a t ih =>
    intro hw z
    have ha : pyIsSpace a = true := hw a (List.mem_cons_self a t)
    have ht : allWsL t := fun x hx => hw x (List.mem_cons_of_mem a hx)
    have h2 := ih ht z
    simp only [wsCount, List.cons_append, List.takeWhile_cons, ha, List.length_cons] at *
    simp only [if_true]
    simp only [List.length_cons]
    omega

theorem allWs_take_of_le_wsCount {s : List Char} {i : Nat} (h : i ≤ wsCount s) :
    allWsL (List.take i s) := by
  intro x hx
  have h2 : s.takeWhile pyIsSpace = s.take ((s.takeWhile pyIsSpace).length) :=
    List.prefix_iff_eq_take.mp (List.takeWhile_prefix _)
  have h1 : List.take i s = List.take i (s.takeWhile pyIsSpace) := by
    rw [h2, List.take_take,
      inf_eq_left.mpr (show i ≤ (List.takeWhile pyIsSpace s).length from h)]
  rw [h1] at hx
  have hx2 : x ∈ s.takeWhile pyIsSpace := (List.take_prefix _ _).subset hx
  exact List.mem_takeWhile_imp hx2

theorem subFirstWith_id {matchAt : List Char → Option (List Char)} {repl : List Char} :
    ∀ s, (∀ i, matchAt (List.drop i s) = none) → subFirstWith matchAt repl s = s := by
  intro s
  induction s with
  | nil =>
    intro h
    have h0 := h 0
    rw [List.drop_zero] at h0
    simp only [subFirstWith]
    rw [h0]
  | cons c tail ih =>
    intro h
    have h0 := h 0
    rw [List.drop_zero] at h0
    simp only [subFirstWith]
    rw [h0]
    rw [ih (fun i => by have := h (i + 1); rwa [List.drop_succ_cons] at this)]

theorem subFirstWith_first {matchAt : List Char → Option (List Char)} {repl : List Char} :
    ∀ s p rest, matchAt (List.drop p s) = some rest →
      (∀ q, q < p → matchAt (List.drop q s) = none) →
      subFirstWith matchAt repl s = List.take p s ++ repl ++ rest := by
  intro s
  induction s with
  | nil =>
    intro p rest hm _
    rw [List.drop_nil] at hm
    simp only [subFirstWith]
    rw [hm]
    simp
  | cons c tail ih =>
    intro p rest hm hbefore
    cases p with
    | zero =>
      rw [List.drop_zero] at hm
      simp only [subFirstWith]
      rw [hm]
      simp
    | succ p =>
      have h0 := hbefore 0 (Nat.succ_pos p)
      rw [List.drop_zero] at h0
      rw [List.drop_succ_cons] at hm
      simp only [subFirstWith]
      rw [h0]
      rw [ih p rest hm (fun q hq => by
        have := hbefore (q + 1) (by omega)
        rwa [List.drop_succ_cons] at this)]
      simp

theorem matchMarkerAt_some_shape {o s rest : List Char}
    (hm : matchMarkerAt o s = some rest) : MarkerShape o s rest := by
  unfold matchMarkerAt at hm
  split at hm
  · rename_i hpre
    obtain ⟨i, hi, h2⟩ := List.exists_of_findSome?_eq_some hm
    rw [List.mem_reverse, List.mem_range] at hi
    dsimp only [] at h2
    split at h2
    · rename_i hpre2
      obtain ⟨j, hj, h3⟩ := List.exists_of_findSome?_eq_some h2
      rw [List.mem_reverse, List.mem_range] at hj
      split at h3
      · rename_i tl hdrop
        injection h3 with h3
        subst h3
        refine ⟨s.take 10, (s.drop 10).take i,
          ((s.drop 10).drop i).take o.length,
          (((s.drop 10).drop i).drop o.length).take j, ?_, ?_, ?_, ?_, ?_⟩
        · calc s = s.take 10 ++ s.drop 10 := (List.take_append_drop 10 s).symm
          _ = s.take 10 ++ ((s.drop 10).take i ++ (s.drop 10).drop i) := by
              simp only [List.take_append_drop]
          _ = s.take 10 ++ ((s.drop 10).take i ++
              (((s.drop 10).drop i).take o.length ++ ((s.drop 10).drop i).drop o.length)) := by
              simp only [List.take_append_drop]
          _ = s.take 10 ++ ((s.drop 10).take i ++
              (((s.drop 10).drop i).take o.length ++
                ((((s.drop 10).drop i).drop o.length).take j ++
                  (((s.drop 10).drop i).drop o.length).drop j))) := by
              simp only [List.take_append_drop]
          _ = s.take 10 ++ ((s.drop 10).take i ++
              (((s.drop 10).drop i).take o.length ++
                ((((s.drop 10).drop i).drop o.length).take j ++ (']' :: tl)))) := by
              rw [hdrop]
        · have := isPrefixOfCI_take hpre
          rwa [show ("[FEEDBACK:".toList).length = 10 from by decide] at this
        · exact allWs_take_of_le_wsCount (by omega)
        · exact isPrefixOfCI_take hpre2
        · exact allWs_take_of_le_wsCount (by omega)
      · exact absurd h3 (by simp)
    · exact absurd h2 (by simp)
  · exact absurd hm (by simp)

theorem matchMarkerAt_isSome_of_shape {o s rest : List Char}
    (hsh : MarkerShape o s rest) : (matchMarkerAt o s).isSome = true := by
  obtain ⟨hh, w1, o2, w2, hEq, hhh, hw1, ho2, hw2⟩ := hsh
  have hhlen : hh.length = 10 := by
    have h1 := ciEqL_length hhh
    have h2 : ("[FEEDBACK:".toList).length = 10 := by decide
    omega
  have ho2len : o2.length = o.length := ciEqL_length ho2
  subst hEq
  unfold matchMarkerAt
  have hpl : ("[FEEDBACK:".toList).length = 10 := by decide
  have htake : (hh ++ (w1 ++ (o2 ++ (w2 ++ ']' :: rest)))).take (("[FEEDBACK:".toList).length)
      = hh := by
    rw [hpl, ← hhlen, List.take_left]
  have hpre : isPrefixOfCI "[FEEDBACK:".toList (hh ++ (w1 ++ (o2 ++ (w2 ++ ']' :: rest)))) = true :=
    isPrefixOfCI_of_take (by rw [htake]; exact hhh)
  rw [if_pos hpre]
  have hdrop10 : (hh ++ (w1 ++ (o2 ++ (w2 ++ ']' :: rest)))).drop 10
      = w1 ++ (o2 ++ (w2 ++ ']' :: rest)) := by
    rw [← hhlen, List.drop_left]
  rw [hdrop10]
  simp only [List.findSome?_isSome_iff]
  refine ⟨w1.length, ?_, ?_⟩
  · rw [List.mem_reverse, List.mem_range]
    exact Nat.lt_succ_of_le (wsCount_ge_of_allWs w1 hw1 _)
  · dsimp only []
    rw [List.drop_left]
    have htake2 : (o2 ++ (w2 ++ ']' :: rest)).take o.length = o2 := by
      rw [← ho2len, List.take_left]
    have hpre2 : isPrefixOfCI o (o2 ++ (w2 ++ ']' :: rest)) = true :=
      isPrefixOfCI_of_take (by rw [htake2]; exact ho2)
    rw [if_pos hpre2]
    have hdrop2 : (o2 ++ (w2 ++ ']' :: rest)).drop o.length = w2 ++ ']' :: rest := by
      rw [← ho2len, List.drop_left]
    rw [hdrop2]
    simp only [List.findSome?_isSome_iff]
    refine ⟨w2.length, ?_, ?_⟩
    · rw [List.mem_reverse, List.mem_range]
      exact Nat.lt_succ_of_le (wsCount_ge_of_allWs w2 hw2 _)
    · dsimp only []
      rw [List.drop_left]
      rfl

theorem drop_append_le {l₁ l₂ : List Char} {n : Nat} (h : n ≤ l₁.length) :
    (l₁ ++ l₂).drop n = l₁.drop n ++ l₂ := by
  rw [List.drop_append_eq_append_drop, Nat.sub_eq_zero_of_le h, List.drop_zero]

theorem drop_append_ge {l₁ l₂ : List Char} {n : Nat} (h : l₁.length ≤ n) :
    (l₁ ++ l₂).drop n = l₂.drop (n - l₁.length) := by
  rw [List.drop_append_eq_append_drop, List.drop_eq_nil_of_le h, List.nil_append]

theorem lbracket_not_mem_of_mapLower {t L : List Char}
    (h : t.map pyLower = L) (hL : '[' ∉ L) : '[' ∉ t := by
  intro hx
  apply hL
  rw [← h]
  exact List.mem_map.mpr ⟨'[', hx, by decide⟩

theorem lbracket_not_mem_of_ciEqL {t u : List Char} (h : ciEqL t u) (hu : '[' ∉ u) :
    '[' ∉ t := by
  intro hx
  unfold ciEqL at h
  have h1 : '[' ∈ t.map pyLower := List.mem_map.mpr ⟨'[', hx, by decide⟩
  rw [h] at h1
  obtain ⟨y, hy, hpy⟩ := List.mem_map.mp h1
  exact hu (pyLower_eq_lbracket hpy ▸ hy)

theorem lbracket_not_mem_of_allWs {w : List Char} (hw : allWsL w) : '[' ∉ w :=
  fun hx => absurd (hw '[' hx) (by decide)

theorem ciEqL_pre_decomp {hh : List Char} (hhh : ciEqL hh ("[FEEDBACK:".toList)) :
    ∃ c0 t0, hh = c0 :: t0 ∧ pyLower c0 = '[' ∧ '[' ∉ t0 := by
  unfold ciEqL at hhh
  have hlow : List.map pyLower ("[FEEDBACK:".toList) = "[feedback:".toList := by decide
  rw [hlow] at hhh
  cases hh with
  | nil => simp at hhh
  | cons c0 t0 =>
    have hsplit : "[feedback:".toList = '[' :: "feedback:".toList := by decide
    rw [hsplit, List.map_cons] at hhh
    injection hhh with hc ht
    exact ⟨c0, t0, rfl, hc,
      lbracket_not_mem_of_mapLower ht (by decide)⟩

theorem shape_head {o s rest : List Char} (hsh : MarkerShape o s rest) :
    ∃ c0 t, s = c0 :: t ∧ pyLower c0 = '[' := by
  obtain ⟨hh, w1, o2, w2, hEq, hhh, _, _, _⟩ := hsh
  obtain ⟨c0, t0, hhc, hc0, _⟩ := ciEqL_pre_decomp hhh
  refine ⟨c0, t0 ++ (w1 ++ (o2 ++ (w2 ++ ']' :: rest))), ?_, hc0⟩
  rw [hEq, hhc]
  rfl

theorem shape_block {o hh w1 o2 w2 : List Char}
    (hhh : ciEqL hh ("[FEEDBACK:".toList)) (hw1 : allWsL w1)
    (ho2 : ciEqL o2 o) (hw2 : allWsL w2) (hob : '[' ∉ o) :
    ∃ c0 mid, hh ++ (w1 ++ (o2 ++ (w2 ++ [']']))) = c0 :: (mid ++ [']']) ∧ '[' ∉ mid := by
  obtain ⟨c0, t0, hhc, hc0, ht0⟩ := ciEqL_pre_decomp hhh
  refine ⟨c0, t0 ++ (w1 ++ (o2 ++ w2)), ?_, ?_⟩
  · rw [hhc]
    simp [List.append_assoc]
  · simp only [List.mem_append, not_or]
    exact ⟨ht0, lbracket_not_mem_of_allWs hw1,
      lbracket_not_mem_of_ciEqL ho2 hob, lbracket_not_mem_of_allWs hw2⟩

theorem resolved_decomp (o c : String) (hob : '[' ∉ o.toList) (hcb : '[' ∉ c.toList) :
    ∃ mid, (mkResolvedMarker c o).toList = '[' :: (mid ++ [']']) ∧ '[' ∉ mid := by
  refine ⟨"FEEDBACK-RESOLVED: ".toList ++ (c.toList ++ (" | FEEDBACK: ".toList ++ o.toList)),
    ?_, ?_⟩
  · have h1 : (mkResolvedMarker c o).toList =
        "[FEEDBACK-RESOLVED: ".toList ++ c.toList ++ " | FEEDBACK: ".toList ++
          o.toList ++ "]".toList := by
      simp [mkResolvedMarker]
    rw [h1]
    have h2 : "[FEEDBACK-RESOLVED: ".toList = '[' :: "FEEDBACK-RESOLVED: ".toList := by decide
    rw [h2]
    have h3 : "]".toList = [']'] := by decide
    rw [h3]
    simp [List.append_assoc]
  · simp only [List.mem_append, not_or]
    refine ⟨by decide, hcb, by decide, hob⟩

theorem isPrefixOfCI_marker_resolved (z : List Char) :
    isPrefixOfCI "[FEEDBACK:".toList ("[FEEDBACK-RESOLVED: ".toList ++ z) = false := by
  cases hb : isPrefixOfCI "[FEEDBACK:".toList ("[FEEDBACK-RESOLVED: ".toList ++ z) with
  | false => rfl
  | true =>
    exfalso
    have h1 := isPrefixOfCI_take hb
    have h2 : ("[FEEDBACK-RESOLVED: ".toList ++ z).take (("[FEEDBACK:".toList).length) =
        "[FEEDBACK-".toList := by
      rw [List.take_append_eq_append_take]
      have e1 : ("[FEEDBACK-RESOLVED: ".toList).take (("[FEEDBACK:".toList).length) =
          "[FEEDBACK-".toList := by decide
      have e2 : ("[FEEDBACK:".toList).length - ("[FEEDBACK-RESOLVED: ".toList).length = 0 := by
        decide
      rw [e1, e2, List.take_zero, List.append_nil]
    rw [h2] at h1
    unfold ciEqL at h1
    exact absurd h1 (by decide)

theorem matchMarkerAt_resolved_start (o c : String) (B : List Char) :
    matchMarkerAt o.toList ((mkResolvedMarker c o).toList ++ B) = none := by
  have h1 : (mkResolvedMarker c o).toList ++ B =
      "[FEEDBACK-RESOLVED: ".toList ++
        (c.toList ++ (" | FEEDBACK: ".toList ++ (o.toList ++ ("]".toList ++ B)))) := by
    simp [mkResolvedMarker, List.append_assoc]
  rw [h1]
  unfold matchMarkerAt
  rw [isPrefixOfCI_marker_resolved]
  simp

theorem no_match_after_replace
    (o c : String) (A B hh w1 o2 w2 : List Char)
    (hob : '[' ∉ o.toList) (hcb : '[' ∉ c.toList)
    (hhh : ciEqL hh ("[FEEDBACK:".toList)) (hw1 : allWsL w1)
    (ho2 : ciEqL o2 o.toList) (hw2 : allWsL w2)
    (huniq : ∀ q, q ≠ A.length →
      matchMarkerAt o.toList
        (List.drop q (A ++ (hh ++ (w1 ++ (o2 ++ (w2 ++ ']' :: B)))))) = none) :
    ∀ i, matchMarkerAt o.toList
      (List.drop i (A ++ ((mkResolvedMarker c o).toList ++ B))) = none := by
  intro i
  cases hcand : matchMarkerAt o.toList
      (List.drop i (A ++ ((mkResolvedMarker c o).toList ++ B))) with
  | none => rfl
  | some r =>
    exfalso
    obtain ⟨Rmid, hRdec, hRmid⟩ := resolved_decomp o c hob hcb
    have hRlen : ((mkResolvedMarker c o).toList).length = Rmid.length + 2 := by
      rw [hRdec]
      simp
    rcases Nat.lt_or_ge i A.length with hi | hi
    · -- the match would start inside the prefix kept from the original document
      obtain ⟨hh2, w12, o22, w22, hEq2, hhh2, hw12, ho22, hw22⟩ :=
        matchMarkerAt_some_shape hcand
      have hdropNew : (A ++ ((mkResolvedMarker c o).toList ++ B)).drop i =
          A.drop i ++ ((mkResolvedMarker c o).toList ++ B) := drop_append_le (le_of_lt hi)
      rw [hdropNew] at hEq2
      have hTassoc : hh2 ++ (w12 ++ (o22 ++ (w22 ++ ']' :: r))) =
          (hh2 ++ (w12 ++ (o22 ++ (w22 ++ [']'])))) ++ r := by
        simp [List.append_assoc]
      rw [hTassoc] at hEq2
      obtain ⟨c0, mid, hTdec, hmid⟩ := shape_block hhh2 hw12 ho22 hw22 hob
      have hAi : (A.drop i).length = A.length - i := by
        rw [List.length_drop]
      have hm1 : 1 ≤ (A.drop i).length := by omega
      have hlenT : (hh2 ++ (w12 ++ (o22 ++ (w22 ++ [']'])))).length = mid.length + 2 := by
        rw [hTdec]
        simp
      have hTle : (hh2 ++ (w12 ++ (o22 ++ (w22 ++ [']'])))).length ≤ (A.drop i).length := by
        by_contra hgt
        push_neg at hgt
        have hdropm := congrArg (List.drop ((A.drop i).length)) hEq2
        rw [List.drop_left] at hdropm
        rw [drop_append_le (le_of_lt hgt)] at hdropm
        have hTdrop : (hh2 ++ (w12 ++ (o22 ++ (w22 ++ [']'])))).drop ((A.drop i).length) =
            (mid ++ [']']).drop ((A.drop i).length - 1) := by
          rw [hTdec]
          cases hAd : (A.drop i).length with
          | zero => exfalso; omega
          | succ m' =>
            rw [List.drop_succ_cons]
            simp only [Nat.add_sub_cancel]
        rw [hTdrop] at hdropm
        have hne : (mid ++ [']']).drop ((A.drop i).length - 1) ≠ [] := by
          intro hnil
          have hl := congrArg List.length hnil
          rw [List.length_drop] at hl
          simp only [List.length_append, List.length_cons, List.length_nil] at hl
          omega
        obtain ⟨x, X', hX⟩ := List.exists_cons_of_ne_nil hne
        rw [hX] at hdropm
        rw [hRdec] at hdropm
        have hx : '[' = x := by
          have := congrArg List.head? hdropm
          simpa using this
        have hxmem : x ∈ mid ++ [']'] := by
          have hx2 : x ∈ (mid ++ [']']).drop ((A.drop i).length - 1) := by
            rw [hX]
            exact List.mem_cons_self _ _
          exact List.drop_subset _ _ hx2
        rw [← hx] at hxmem
        rcases List.mem_append.mp hxmem with h | h
        · exact hmid h
        · simp at h
      have hpref : (hh2 ++ (w12 ++ (o22 ++ (w22 ++ [']'])))) <+: A.drop i :=
        List.prefix_of_prefix_length_le ⟨r, hEq2.symm⟩ (List.prefix_append _ _) hTle
      obtain ⟨u, hu⟩ := hpref
      have hDdrop : (A ++ (hh ++ (w1 ++ (o2 ++ (w2 ++ ']' :: B))))).drop i =
          A.drop i ++ (hh ++ (w1 ++ (o2 ++ (w2 ++ ']' :: B)))) := drop_append_le (le_of_lt hi)
      have hshD : MarkerShape o.toList
          ((A ++ (hh ++ (w1 ++ (o2 ++ (w2 ++ ']' :: B))))).drop i)
          (u ++ (hh ++ (w1 ++ (o2 ++ (w2 ++ ']' :: B))))) := by
        refine ⟨hh2, w12, o22, w22, ?_, hhh2, hw12, ho22, hw22⟩
        rw [hDdrop, ← hu]
        simp [List.append_assoc]
      have hisSome := matchMarkerAt_isSome_of_shape hshD
      rw [huniq i (by omega)] at hisSome
      simp at hisSome
    · rcases Nat.lt_or_ge i (A.length + ((mkResolvedMarker c o).toList).length) with hi2 | hi2
      · -- the match would start inside the spliced resolved marker
        have hdropNew : (A ++ ((mkResolvedMarker c o).toList ++ B)).drop i =
            ((mkResolvedMarker c o).toList).drop (i - A.length) ++ B := by
          rw [drop_append_ge hi]
          rw [drop_append_le (by omega)]
        rw [hdropNew] at hcand
        rcases Nat.eq_zero_or_pos (i - A.length) with hz | hpos
        · rw [hz, List.drop_zero] at hcand
          rw [matchMarkerAt_resolved_start o c B] at hcand
          simp at hcand
        · obtain ⟨c0, t, hct, hc0⟩ := shape_head (matchMarkerAt_some_shape hcand)
          have hRdrop : ((mkResolvedMarker c o).toList).drop (i - A.length) =
              (Rmid ++ [']']).drop (i - A.length - 1) := by
            rw [hRdec]
            cases hm : i - A.length with
            | zero => exfalso; omega
            | succ m' =>
              rw [List.drop_succ_cons]
              simp only [Nat.add_sub_cancel]
          have hne : ((mkResolvedMarker c o).toList).drop (i - A.length) ≠ [] := by
            intro hnil
            have hl := congrArg List.length hnil
            rw [List.length_drop] at hl
            simp only [List.length_nil] at hl
            omega
          obtain ⟨x, X', hX⟩ := List.exists_cons_of_ne_nil hne
          rw [hX] at hct
          have hxc : x = c0 := by
            have := congrArg List.head? hct
            simpa using this
          have hxl : x = '[' := pyLower_eq_lbracket (hxc ▸ hc0)
          have hxmem : x ∈ Rmid ++ [']'] := by
            have hx2 : x ∈ ((mkResolvedMarker c o).toList).drop (i - A.length) := by
              rw [hX]
              exact List.mem_cons_self _ _
            rw [hRdrop] at hx2
            exact List.drop_subset _ _ hx2
          rw [hxl] at hxmem
          rcases List.mem_append.mp hxmem with h | h
          · exact hRmid h
          · simp at h
      · -- the match would lie in the unchanged suffix after the marker
        have hdropNew : (A ++ ((mkResolvedMarker c o).toList ++ B)).drop i =
            B.drop (i - A.length - ((mkResolvedMarker c o).toList).length) := by
          rw [drop_append_ge hi, drop_append_ge (by omega)]
        rw [hdropNew] at hcand
        have hXassoc : hh ++ (w1 ++ (o2 ++ (w2 ++ ']' :: B))) =
            (hh ++ (w1 ++ (o2 ++ (w2 ++ [']'])))) ++ B := by
          simp [List.append_assoc]
        have hq : (A ++ (hh ++ (w1 ++ (o2 ++ (w2 ++ ']' :: B))))).drop
            (A.length + (hh ++ (w1 ++ (o2 ++ (w2 ++ [']'])))).length +
              (i - A.length - ((mkResolvedMarker c o).toList).length)) =
            B.drop (i - A.length - ((mkResolvedMarker c o).toList).length) := by
          rw [hXassoc]
          rw [drop_append_ge (by omega)]
          rw [drop_append_ge (by omega)]
          congr 1
          omega
        have hSPlen : 1 ≤ (hh ++ (w1 ++ (o2 ++ (w2 ++ [']'])))).length := by
          simp only [List.length_append, List.length_cons, List.length_nil]
          omega
        have hu := huniq (A.length + (hh ++ (w1 ++ (o2 ++ (w2 ++ [']'])))).length +
          (i - A.length - ((mkResolvedMarker c o).toList).length)) (by omega)
        rw [hq] at hu
        rw [hu] at hcand
        simp at hcand

theorem parseTemplateGo_no_backslash :
    ∀ n (l : List Char), l.length < n → '\\' ∉ l →
      parseTemplateGo n l = .ok (l.map TmplTok.lit) := by
  intro n
  induction n with
  | zero =>
    intro l h _
    exact absurd h (Nat.not_lt_zero _)
  | succ n ih =>
    intro l hlen hnb
    cases l with
    | nil => rfl
    | cons ch rest =>
      have hch : ch ≠ '\\' := fun h => hnb (h ▸ List.mem_cons_self ch rest)
      have hrest : '\\' ∉ rest := fun h => hnb (List.mem_cons_of_mem ch h)
      simp only [List.length_cons] at hlen
      simp only [parseTemplateGo]
      rw [if_neg hch, ih rest (by omega) hrest]
      simp

theorem expandTemplate_map_lit : ∀ (l m : List Char),
    expandTemplate (l.map TmplTok.lit) m = l := by
  intro l m
  induction l with
  | nil => rfl
  | cons ch rest ih =>
    simp only [List.map_cons, expandTemplate, ih]

theorem subFirstWithT_map_lit (matchAt : List Char → Option (List Char))
    (repl : List Char) : ∀ s, subFirstWithT matchAt (repl.map TmplTok.lit) s =
      subFirstWith matchAt repl s := by
  intro s
  induction s with
  | nil =>
    simp only [subFirstWithT, subFirstWith]
    cases hm : matchAt [] with
    | some rest => simp [expandTemplate_map_lit]
    | none => rfl
  | cons c tail ih =>
    simp only [subFirstWithT, subFirstWith]
    cases hm : matchAt (c :: tail) with
    | some rest => simp [expandTemplate_map_lit]
    | none => simp [ih]

theorem mkResolvedMarker_no_backslash {o c : String}
    (hobs : '\\' ∉ o.toList) (hcbs : '\\' ∉ c.toList) :
    '\\' ∉ (mkResolvedMarker c o).toList := by
  intro hx
  have h1 : (mkResolvedMarker c o).toList =
      "[FEEDBACK-RESOLVED: ".toList ++ c.toList ++ " | FEEDBACK: ".toList ++
        o.toList ++ "]".toList := by
    simp [mkResolvedMarker]
  rw [h1] at hx
  simp only [List.mem_append] at hx
  rcases hx with ((((h | h) | h) | h) | h)
  · exact absurd h (by decide)
  · exact hcbs h
  · exact absurd h (by decide)
  · exact hobs h
  · exact absurd h (by decide)

theorem resolveOnePair_eval (o c E : String)
    (hobs : '\\' ∉ o.toList) (hcbs : '\\' ∉ c.toList) :
    resolveOnePair (o, c) E =
      .ok (String.mk (subFirstWith (matchMarkerAt o.toList)
        ((mkResolvedMarker c o).toList) E.toList)) := by
  have hnb := mkResolvedMarker_no_backslash hobs hcbs
  have hparse : parseTemplate ((mkResolvedMarker c o).toList) =
      .ok (((mkResolvedMarker c o).toList).map TmplTok.lit) :=
    parseTemplateGo_no_backslash _ _ (Nat.lt_succ_self _) hnb
  unfold resolveOnePair
  dsimp only []
  rw [hparse]
  dsimp only []
  rw [subFirstWithT_map_lit]

theorem resolve_cons (p : String × String) (rest : List (String × String))
    (content : String) :
    resolve_feedback_markers (p :: rest) content =
      match resolveOnePair p content with
      | .ok c2 => resolve_feedback_markers rest c2
      | .error e => .error e := rfl

theorem resolve_single_eval (o c E : String)
    (hobs : '\\' ∉ o.toList) (hcbs : '\\' ∉ c.toList) :
    resolve_feedback_markers [(o, c)] E =
      .ok (String.mk (subFirstWith (matchMarkerAt o.toList)
        ((mkResolvedMarker c o).toList) E.toList)) := by
  rw [resolve_cons, resolveOnePair_eval o c E hobs hcbs]
  rfl

/-- **C7** (amended): for a resolution pair `(original, comment)` neither
of whose strings contains `'['` or a backslash, whose marker token
`\[FEEDBACK:\s*original\s*\]` matches the draft at exactly one position,
`resolve_feedback_markers` with the singleton resolution list replaces
exactly that first (unique) matching token with
`[FEEDBACK-RESOLVED: comment | FEEDBACK: original]`, leaves the rest of
the document unchanged, and applying the function a second time with the
same list leaves the document unchanged (the original marker no longer
matches anywhere). The original claim's idempotence part fails when the
token occurs more than once — see the counterexample. -/
theorem resolve_marker_roundtrip (o c D : String) (p : Nat) (rest : List Char)
    (hob : '[' ∉ o.toList) (hcb : '[' ∉ c.toList)
    (hobs : '\\' ∉ o.toList) (hcbs : '\\' ∉ c.toList)
    (hp : matchMarkerAt o.toList (List.drop p D.toList) = some rest)
    (huniq : ∀ q, q ≠ p → matchMarkerAt o.toList (List.drop q D.toList) = none) :
    resolve_feedback_markers [(o, c)] D =
      .ok (String.mk (List.take p D.toList ++ ((mkResolvedMarker c o).toList ++ rest))) ∧
    (resolve_feedback_markers [(o, c)] D).bind (resolve_feedback_markers [(o, c)]) =
      resolve_feedback_markers [(o, c)] D := by
  have hbefore : ∀ q, q < p → matchMarkerAt o.toList (List.drop q D.toList) = none :=
    fun q hq => huniq q (by omega)
  have h1 : resolve_feedback_markers [(o, c)] D =
      .ok (String.mk (List.take p D.toList ++ ((mkResolvedMarker c o).toList ++ rest))) := by
    rw [resolve_single_eval o c D hobs hcbs,
      subFirstWith_first D.toList p rest hp hbefore]
    simp [List.append_assoc]
  obtain ⟨hh, w1, o2, w2, hEq, hhh, hw1, ho2, hw2⟩ := matchMarkerAt_some_shape hp
  have hplen : p ≤ D.toList.length := by
    by_contra hgt
    push_neg at hgt
    rw [List.drop_eq_nil_of_le (le_of_lt hgt)] at hEq
    have := congrArg List.length hEq
    simp only [List.length_nil, List.length_append, List.length_cons] at this
    omega
  have hA : D.toList = List.take p D.toList ++ (hh ++ (w1 ++ (o2 ++ (w2 ++ ']' :: rest)))) := by
    conv_lhs => rw [← List.take_append_drop p D.toList]
    rw [hEq]
  have hAlen : (List.take p D.toList).length = p := by
    rw [List.length_take]
    omega
  have huniq2 : ∀ q, q ≠ (List.take p D.toList).length →
      matchMarkerAt o.toList
        (List.drop q (List.take p D.toList ++
          (hh ++ (w1 ++ (o2 ++ (w2 ++ ']' :: rest)))))) = none := by
    intro q hq
    rw [← hA]
    exact huniq q (by rw [hAlen] at hq; exact hq)
  have hnomatch := no_match_after_replace o c (List.take p D.toList) rest hh w1 o2 w2
    hob hcb hhh hw1 ho2 hw2 huniq2
  refine ⟨h1, ?_⟩
  rw [h1]
  show resolve_feedback_markers [(o, c)]
      (String.mk (List.take p D.toList ++ ((mkResolvedMarker c o).toList ++ rest))) =
    Except.ok (String.mk (List.take p D.toList ++ ((mkResolvedMarker c o).toList ++ rest)))
  rw [resolve_single_eval o c _ hobs hcbs]
  have hlist : (String.mk (List.take p D.toList ++
      ((mkResolvedMarker c o).toList ++ rest))).toList =
      List.take p D.toList ++ ((mkResolvedMarker c o).toList ++ rest) := rfl
  rw [hlist]
  rw [subFirstWith_id _ hnomatch]

/-- The original C7 claim fails on documents holding the same token twice:
the first application resolves only the first occurrence, so the second
application resolves the second occurrence and changes the document
again. -/
theorem resolve_marker_counterexample :
    containsSubS "[FEEDBACK: x] and [FEEDBACK: x]" "[FEEDBACK: x]" = true ∧
    (resolve_feedback_markers [("x", "done")] "[FEEDBACK: x] and [FEEDBACK: x]").bind
        (resolve_feedback_markers [("x", "done")]) ≠
      resolve_feedback_markers [("x", "done")] "[FEEDBACK: x] and [FEEDBACK: x]" := by
  constructor
  · decide
  · decide

theorem resolve_marker_roundtrip_witness :
    resolve_feedback_markers [("x", "done")] "a [FEEDBACK: x] b" =
      .ok (String.mk (List.take 2 ("a [FEEDBACK: x] b").toList ++
        ((mkResolvedMarker "done" "x").toList ++ (" b").toList))) ∧
    (resolve_feedback_markers [("x", "done")] "a [FEEDBACK: x] b").bind
        (resolve_feedback_markers [("x", "done")]) =
      resolve_feedback_markers [("x", "done")] "a [FEEDBACK: x] b" :=
  resolve_marker_roundtrip "x" "done" "a [FEEDBACK: x] b" 2 (" b".toList)
    (by decide) (by decide) (by decide) (by decide) (by decide)
    (fun q hq => by
      by_cases h17 : q < 17
      · interval_cases q <;> first | exact absurd rfl hq | decide
      · have hnil : ("a [FEEDBACK: x] b".toList).drop q = [] :=
          List.drop_eq_nil_of_le (by
            have hlen : ("a [FEEDBACK: x] b".toList).length = 17 := by decide
            omega)
        rw [hnil]
        decide)
